import Mathlib

/-!
Verification development for the SoFIFA scraper (src/soccerdata/sofifa.py).

The Python source is shallowly embedded: each reader method becomes a Lean
function over an explicit environment of parsed documents, stateful fetching
becomes a writer/except pair recording every document request, Python
exceptions become an explicit error type, and the regular expressions used by
the source are executed by a small backtracking matcher covering exactly the
regex fragment the source uses (literals, character classes, greedy and lazy
quantifiers over single-character atoms, and capture groups over such atoms).
Python arithmetic on parsed decimal strings is modelled exactly (the values in
scope are small decimal literals, so exact arithmetic agrees with the float
arithmetic of the source on the inputs exercised here).
-/

deriving instance DecidableEq for Except

namespace Sofifa

/-- Python exceptions raised by the embedded code paths.  The constructors
mirror the exception classes that the source can raise, each carrying the
message Python would attach. -/
inductive PyErr where
  | attributeError (msg : String)
  | indexError (msg : String)
  | typeError (msg : String)
  | valueError (msg : String)
  | keyError (msg : String)
deriving DecidableEq, Repr

/-- Message carried by an embedded Python exception. -/
def PyErr.msg : PyErr → String
  | .attributeError m => m
  | .indexError m => m
  | .typeError m => m
  | .valueError m => m
  | .keyError m => m

/-- Values stored in a scraped record: strings, machine integers, or the
Python None used for missing optional fields. -/
inductive Val where
  | str (s : String)
  | nat (n : Nat)
  | null
deriving DecidableEq, Repr

/-! ### String helpers -/

/-- Test whether the pattern list is an initial segment of the first list. -/
def startsWith : List Char → List Char → Bool
  | _, [] => true
  | [], _ :: _ => false
  | c :: cs, d :: ds => c = d && startsWith cs ds

/-- Naive substring search: does `sub` occur contiguously inside `s`? -/
def containsSub : List Char → List Char → Bool
  | [], sub => startsWith [] sub
  | c :: t, sub => startsWith (c :: t) sub || containsSub t sub

/-- Split a character list at every occurrence of the separator, keeping
empty chunks, as Python str.split with an explicit separator does. -/
def splitOnChar (sep : Char) : List Char → List (List Char)
  | [] => [[]]
  | c :: rest =>
    if c = sep then
      [] :: splitOnChar sep rest
    else
      match splitOnChar sep rest with
      | [] => [[c]]
      | g :: gs => (c :: g) :: gs

/-- Python str.strip(): drop leading and trailing whitespace. -/
def stripChars (cs : List Char) : List Char :=
  ((cs.dropWhile Char.isWhitespace).reverse.dropWhile Char.isWhitespace).reverse

/-- Python str.strip() on a String. -/
def stripStr (s : String) : String := ⟨stripChars s.data⟩

/-- Python int() applied to a nonempty string of decimal digits, as happens to
every regex capture group of the source (the groups are matched by \d+ or
\d{n,m} so they contain digits only). -/
def pyIntDigits (s : String) : Nat :=
  s.data.foldl (fun a c => a * 10 + (c.toNat - 48)) 0

/-- Auxiliary fuel-indexed rendering of a positive integer in base 10, most
significant digit first; the fuel is an upper bound on the argument, so the
recursion is structural and kernel-reducible. -/
def decCharsAux : Nat → Nat → List Char
  | 0, _ => []
  | _, 0 => []
  | fuel + 1, n + 1 =>
    decCharsAux fuel ((n + 1) / 10) ++ [Nat.digitChar ((n + 1) % 10)]

/-- Decimal digit characters of a natural number, as Python str(int) renders
a nonnegative integer. -/
def natToDecChars (n : Nat) : List Char :=
  if n = 0 then ['0'] else decCharsAux n n

/-- Python str() of a nonnegative integer. -/
def natToDec (n : Nat) : String := ⟨natToDecChars n⟩

/-! ### A backtracking matcher for the regex fragment used by the source

Every quantifier in the source patterns ranges over a single-character atom
(a literal or a character class), so candidate consumption lengths for one
atom can be enumerated directly and search proceeds by trying them in the
preference order Python uses (greedy: longest first; lazy: shortest first). -/

/-- Character classes appearing in the source patterns.  word is Python \w
restricted to ASCII (every character the embedded inputs use), space is \s,
anyNoNL is the dot without DOTALL, notRparen is the class [^)], wordDash is
the class [\w-]. -/
inductive CClass where
  | digit
  | word
  | space
  | anyNoNL
  | notRparen
  | wordDash
deriving DecidableEq, Repr

/-- Membership of a character in a class. -/
def CClass.mem : CClass → Char → Bool
  | .digit, c => c.isDigit
  | .word, c => c.isAlphanum || c = '_'
  | .space, c => c.isWhitespace
  | .anyNoNL, c => c ≠ '\n'
  | .notRparen, c => c ≠ ')'
  | .wordDash, c => c.isAlphanum || c = '_' || c = '-'

/-- Quantifiers over a single-character atom: exactly one occurrence, star
(with a laziness flag), plus (greedy), or a counted repetition {lo,hi}
(greedy). -/
inductive Quant where
  | one
  | star (lazy : Bool)
  | plus
  | rep (lo hi : Nat)
deriving DecidableEq, Repr

/-- Atoms of a pattern: a literal character or a quantified class. -/
inductive Atom where
  | lit (c : Char)
  | cls (cc : CClass) (q : Quant)
deriving DecidableEq, Repr

/-- Items of a pattern: a bare atom, a capture group over a sequence of
atoms, or the end-of-input anchor. -/
inductive RItem where
  | atom (a : Atom)
  | grp (atoms : List Atom)
  | eos
deriving DecidableEq, Repr

/-- Length of the maximal prefix of the input lying in the class. -/
def runLen (cc : CClass) : List Char → Nat
  | [] => 0
  | c :: t => if cc.mem c then runLen cc t + 1 else 0

/-- Candidate consumption lengths for a counted greedy repetition given the
maximal run length available. -/
def repLens (lo hi m : Nat) : List Nat :=
  if m < lo then [] else (List.range' lo (min hi m - lo + 1)).reverse

/-- Candidate consumption lengths for one atom against the input, listed in
the preference order of Python regex backtracking. -/
def atomLens (a : Atom) (s : List Char) : List Nat :=
  match a with
  | .lit c =>
    match s with
    | [] => []
    | d :: _ => if d = c then [1] else []
  | .cls cc q =>
    let m := runLen cc s
    match q with
    | .one => if m = 0 then [] else [1]
    | .star true => List.range (m + 1)
    | .star false => (List.range (m + 1)).reverse
    | .plus => repLens 1 m m
    | .rep lo hi => repLens lo hi m

/-- Try alternatives in order, returning the first success. -/
def firstSome {α β : Type} : List α → (α → Option β) → Option β
  | [], _ => none
  | a :: rest, f =>
    match f a with
    | some b => some b
    | none => firstSome rest f

/-- Match a sequence of atoms against the input in continuation-passing
style; the continuation receives the total number of consumed characters and
the remaining input. -/
def mAtoms {β : Type} : List Atom → Nat → List Char → (Nat → List Char → Option β) → Option β
  | [], n, s, k => k n s
  | a :: rest, n, s, k =>
    firstSome (atomLens a s) (fun len => mAtoms rest (n + len) (s.drop len) k)

/-- Match a sequence of pattern items against the input in continuation-
passing style, accumulating capture-group texts in order of completion. -/
def mItems {β : Type} : List RItem → List Char → List String → (List Char → List String → Option β) → Option β
  | [], s, caps, k => k s caps
  | .atom a :: rest, s, caps, k =>
    firstSome (atomLens a s) (fun len => mItems rest (s.drop len) caps k)
  | .grp atoms :: rest, s, caps, k =>
    mAtoms atoms 0 s (fun n s' => mItems rest s' (caps ++ [⟨s.take n⟩]) k)
  | .eos :: rest, s, caps, k =>
    if s.isEmpty then mItems rest s caps k else none

/-- Python re.match: anchored at the start of the input; returns the list of
capture-group texts on success. -/
def reMatch (pat : List RItem) (s : List Char) : Option (List String) :=
  mItems pat s [] (fun _ caps => some caps)

/-- Python re.search: try the anchored match at every start offset, leftmost
first. -/
def reSearch (pat : List RItem) (s : List Char) : Option (List String) :=
  firstSome (List.range (s.length + 1)) (fun i => reMatch pat (s.drop i))

/-- Literal pattern items for a plain string. -/
def mkLits (s : String) : List RItem := s.data.map (fun c => RItem.atom (.lit c))

/-- Pattern r=(\d+) used on update-option hrefs in read_versions. -/
def patR : List RItem := mkLits "r=" ++ [.grp [.cls .digit .plus]]

/-- Pattern \/team\/(\d+)\/[\w-]+\/ used on team links in read_teams. -/
def patTeam : List RItem :=
  mkLits "/team/" ++ [.grp [.cls .digit .plus]] ++ mkLits "/" ++
    [.atom (.cls .wordDash .plus)] ++ mkLits "/"

/-- Pattern \/player\/(\d+)\/[\w-]+\/ used on player links in read_players. -/
def patPlayer : List RItem :=
  mkLits "/player/" ++ [.grp [.cls .digit .plus]] ++ mkLits "/" ++
    [.atom (.cls .wordDash .plus)] ++ mkLits "/"

/-- Pattern POINT_<CODE>=(\d+) used on the inline script payload in
read_player_ratings. -/
def patPoint (code : String) : List RItem :=
  mkLits ("POINT_" ++ code ++ "=") ++ [.grp [.cls .digit .plus]]

/-- Pattern ^(\d+)y\.o\..*?\((\w+\s\d{1,2},\s\d{4})[^)]*\)\s(\d+)cm.*\s(\d+)kg.*?$
matched against the biographical line in read_player_ratings. -/
def patBasicInfo : List RItem :=
  [.grp [.cls .digit .plus]] ++ mkLits "y.o." ++
    [.atom (.cls .anyNoNL (.star true)), .atom (.lit '(')] ++
    [.grp [.cls .word .plus, .cls .space .one, .cls .digit (.rep 1 2),
           .lit ',', .cls .space .one, .cls .digit (.rep 4 4)]] ++
    [.atom (.cls .notRparen (.star false)), .atom (.lit ')'),
     .atom (.cls .space .one)] ++
    [.grp [.cls .digit .plus]] ++ mkLits "cm" ++
    [.atom (.cls .anyNoNL (.star false)), .atom (.cls .space .one)] ++
    [.grp [.cls .digit .plus]] ++ mkLits "kg" ++
    [.atom (.cls .anyNoNL (.star true)), .eos]

example : reSearch patR "/?r=240001".data = some ["240001"] := by decide

example : reSearch patTeam "/team/50/foo-club/".data = some ["50"] := by decide

example :
    reMatch patBasicInfo "23y.o. (Feb 5, 2001) 180cm / 75kg".data =
      some ["23", "Feb 5, 2001", "180", "75"] := by decide

/-! ### Currency normalization (remove_currency) -/

/-- Python float() applied to a string containing only decimal digits and
dots, which is the shape remove_currency always produces by stripping.  The
value is represented exactly as a pair (n, k) denoting n / 10 ^ k; the source
uses binary floating point, modelled here by exact decimal arithmetic, which
agrees on the small currency literals this scraper processes.  Returns none
exactly when Python float() raises ValueError on such a string: empty input,
a bare dot, or more than one dot. -/
def parsePyFloat (cs : List Char) : Option (Nat × Nat) :=
  if cs.all (fun c => c.isDigit || c == '.') then
    match splitOnChar '.' cs with
    | [d] => if d.isEmpty then none else some (pyIntDigits ⟨d⟩, 0)
    | [i, f] =>
      if i.isEmpty && f.isEmpty then none
      else some (pyIntDigits ⟨i⟩ * 10 ^ f.length + pyIntDigits ⟨f⟩, f.length)
    | _ => none
  else none

/-- Embedding of remove_currency (sofifa.py lines 533-541): strip every
character that is not a digit or a dot, parse the remainder as a number,
multiply by 1,000,000 if the character M occurs anywhere in the original
string, else by 1,000 if K occurs anywhere, truncate to an integer, and
render with str().  The argument is an Option because the call sites pass
scores["Wage"] and scores["Value"], which are None when no extraction
strategy matched; re.sub then raises TypeError exactly as modelled here. -/
def remove_currency (s : Option String) : Except PyErr String :=
  match s with
  | none => .error (.typeError "expected string or bytes-like object")
  | some s =>
    let digitalPart := s.data.filter (fun c => c.isDigit || c == '.')
    match parsePyFloat digitalPart with
    | none =>
      .error (.valueError ("could not convert string to float: " ++ ⟨digitalPart⟩))
    | some (n, k) =>
      if s.data.any (fun c => c == 'M') then .ok (natToDec (n * 1000000 / 10 ^ k))
      else if s.data.any (fun c => c == 'K') then .ok (natToDec (n * 1000 / 10 ^ k))
      else .ok (natToDec (n / 10 ^ k))

/-- Currency normalization as the claim words it: the multiplier is chosen by
the suffix (the final character) of the input, 1,000,000 for a final M,
1,000 for a final K, 1 otherwise.  Stated for comparison with the source
function remove_currency, which tests containment instead of the suffix. -/
def removeCurrencySpecAlg (s : String) : Except PyErr String :=
  let digitalPart := s.data.filter (fun c => c.isDigit || c == '.')
  match parsePyFloat digitalPart with
  | none =>
    .error (.valueError ("could not convert string to float: " ++ ⟨digitalPart⟩))
  | some (n, k) =>
    if s.data.getLast? = some 'M' then .ok (natToDec (n * 1000000 / 10 ^ k))
    else if s.data.getLast? = some 'K' then .ok (natToDec (n * 1000 / 10 ^ k))
    else .ok (natToDec (n / 10 ^ k))

/-- Currency normalization as the amended claim words it, spelled as the
spec's pipeline (strip, parse, choose the multiplier by the occurrence of M
or K anywhere in the input, truncate, render). -/
def removeCurrencyContainsAlg (s : String) : Except PyErr String :=
  let digitalPart := s.data.filter (fun c => c.isDigit || c == '.')
  match parsePyFloat digitalPart with
  | none =>
    .error (.valueError ("could not convert string to float: " ++ ⟨digitalPart⟩))
  | some (n, k) =>
    let mult : Nat := if s.data.any (fun c => c == 'M') then 1000000
      else if s.data.any (fun c => c == 'K') then 1000 else 1
    .ok (natToDec (n * mult / 10 ^ k))

/-! ### Biographical line parsing (read_player_ratings) -/

/-- Abbreviated month names recognised by the %b directive of Python
strptime, lowercase, in calendar order. -/
def monthAbbrs : List String :=
  ["jan", "feb", "mar", "apr", "may", "jun",
   "jul", "aug", "sep", "oct", "nov", "dec"]

/-- Month number (1-12) whose abbreviation is a prefix of the lowered input,
together with the remaining input, as the %b directive consumes it. -/
def monthOfChars (cs : List Char) : Option (Nat × List Char) :=
  let lower := cs.map Char.toLower
  (monthAbbrs.enum.map (fun p => (p.1 + 1, p.2))).foldr
    (fun (m, ab) acc =>
      if startsWith lower ab.data then some (m, cs.drop ab.length) else acc)
    none

/-- Gregorian leap-year test, as datetime validates day ranges. -/
def isLeap (y : Nat) : Bool :=
  (y % 4 = 0 && y % 100 ≠ 0) || y % 400 = 0

/-- Days in a month of a given year. -/
def daysInMonth (m y : Nat) : Nat :=
  if m = 2 then (if isLeap y then 29 else 28)
  else if m = 4 || m = 6 || m = 9 || m = 11 then 30
  else 31

/-- Zero-padded two-digit rendering used by the strftime directives
%m and %d. -/
def pad2 (n : Nat) : String :=
  if n < 10 then "0" ++ natToDec n else natToDec n

/-- Embedding of datetime.strptime(s, "%b %d, %Y").strftime("%m-%d") from
sofifa.py line 493: an abbreviated month name, whitespace, a one- or
two-digit day, a comma, whitespace, a four-digit year, nothing else; the
result keeps only the zero-padded month and day (the year is dropped).
Errors mirror the ValueError raised by strptime on a mismatch or an invalid
day of month. -/
def strptimeMonthDay (s : String) : Except PyErr String :=
  let fail : Except PyErr String :=
    .error (.valueError ("time data '" ++ s ++ "' does not match format '%b %d, %Y'"))
  match monthOfChars s.data with
  | none => fail
  | some (month, rest1) =>
    let ws1 := rest1.takeWhile Char.isWhitespace
    if ws1.isEmpty then fail else
    let rest2 := rest1.drop ws1.length
    let dayDigits := (rest2.takeWhile Char.isDigit).take 2
    if dayDigits.isEmpty then fail else
    let day := pyIntDigits ⟨dayDigits⟩
    let rest3 := rest2.drop dayDigits.length
    match rest3 with
    | ',' :: rest4 =>
      let ws2 := rest4.takeWhile Char.isWhitespace
      if ws2.isEmpty then fail else
      let rest5 := rest4.drop ws2.length
      let yearDigits := rest5.takeWhile Char.isDigit
      if yearDigits.length ≠ 4 then fail else
      let year := pyIntDigits ⟨yearDigits⟩
      if ¬ (rest5.drop 4).isEmpty then fail else
      if day = 0 || daysInMonth month year < day then
        .error (.valueError "day is out of range for month")
      else
        .ok (pad2 month ++ "-" ++ pad2 day)
    | _ => fail

/-- Structured result of the biographical line parse. -/
structure BasicInfo where
  age : Nat
  birthdate : String
  height : Nat
  weight : Nat
deriving DecidableEq, Repr

/-- Embedding of the biographical line handling of read_player_ratings
(sofifa.py lines 485-495): match the fixed pattern against the line; on
failure raise ValueError naming the offending player; on success convert the
captures (age, normalized birthdate with the year dropped, height, weight). -/
def parseBasicInfo (player : Nat) (s : String) : Except PyErr BasicInfo :=
  match reMatch patBasicInfo s.data with
  | none =>
    .error (.valueError ("Basic information '" ++ s ++
      "' not recognized for player " ++ natToDec player))
  | some caps =>
    match caps with
    | [g1, g2, g3, g4] => do
      let birth ← strptimeMonthDay g2
      .ok ⟨pyIntDigits g1, birth, pyIntDigits g3, pyIntDigits g4⟩
    | _ => .error (.valueError "unexpected capture groups")

/-! ### Per-label score extraction (read_player_ratings) -/

/-- A node returned by one of the three per-label XPath strategies; lxml
exposes its text as an optional string. -/
structure EmNode where
  emText : Option String
deriving DecidableEq, Repr

/-- Embedding of the per-label strategy loop of read_player_ratings
(sofifa.py lines 510-524): try each strategy's node list in order; the first
nonempty list wins and only its first node's text (stripped) is used; if no
strategy matches the value stays None.  Calling strip() on a node whose text
is None raises AttributeError, as in Python. -/
def tryStrategies : List (List EmNode) → Except PyErr (Option String)
  | [] => .ok none
  | ns :: rest =>
    match ns with
    | [] => tryStrategies rest
    | n :: _ =>
      match n.emText with
      | none => .error (.attributeError "'NoneType' object has no attribute 'strip'")
      | some t => .ok (some (stripStr t))

/-! ### Documents, environment, and the fetch-recording monad

Each reader consumes parsed documents.  The embedding abstracts lxml trees at
the granularity of the XPath queries the source issues: an environment maps
each page the source can request to the nodes those queries would return. -/

/-- An option element of a select node: its text and its value attribute. -/
structure OptNode where
  optText : String
  optValue : String
deriving DecidableEq, Repr

/-- An anchor element: its href and its (optional) text. -/
structure LinkNode where
  href : String
  linkText : Option String
deriving DecidableEq, Repr

/-- A table row of the team listing page: the anchors returned by the query
.//td[2]//a on that row. -/
structure TeamRowDoc where
  links : List LinkNode
deriving DecidableEq, Repr

/-- An anchor of the squad table matching td[2]/a[contains(@href,'/player/')]:
its href and its data-tippy-content attribute (None when absent). -/
structure PlayerAnchor where
  href : String
  tippy : Option String
deriving DecidableEq, Repr

/-- A table matched by //article/table on the roster page. -/
structure SquadTable where
  anchors : List PlayerAnchor
deriving DecidableEq, Repr

/-- The profile heading: the string() of the text before the br element and
of the text after it (string() of an empty node set is the empty string). -/
structure H1Node where
  beforeBr : String
  afterBr : String
deriving DecidableEq, Repr

/-- A parsed player profile page, at the granularity of the XPath queries
read_player_ratings issues against it.  labelNodes gives, for each score
label and each of the three fallback strategies (indices 0, 1, 2), the node
list that strategy returns. -/
structure ProfileDoc where
  h1s : List H1Node
  headerTitles : List String
  basicTexts : List String
  posTexts : List String
  avatarSrcs : List String
  docTitles : List String
  scripts2 : List String
  labelNodes : String → Nat → List EmNode

/-- A child entry of the league directory JSON. -/
structure LeagueChild where
  cid : Nat
  nationName : String
  cvalue : String
deriving DecidableEq, Repr

/-- A top-level group of the league directory JSON with its child leagues. -/
structure LeagueGroup where
  childs : List LeagueChild
deriving DecidableEq, Repr

/-- One row of the versions table: the fifa_edition and update columns. -/
structure VersionRow where
  fifaEdition : String
  updateLabel : String
deriving DecidableEq, Repr

/-- The world a session runs against: the documents the network would serve
for each page, and the cached copies (with their age) for the pages
read_versions fetches through the cache max-age logic. -/
structure Env where
  webHome : List OptNode
  cacheHome : Option (List OptNode × Nat)
  webUpdates : String → List OptNode
  cacheUpdates : String → Option (List OptNode × Nat)
  webLeagues : List LeagueGroup
  webTeamsList : Nat → Nat → List TeamRowDoc
  webSquad : Nat → Nat → List SquadTable
  webProfile : Nat → Nat → ProfileDoc

/-- Session configuration fixed at construction.  translateLeague models the
league name translation of _translate_league, teamReplacements the
TEAMNAME_REPLACEMENTS alias table, stdCol the column renaming of
standardize_colnames, and dfltMaxAge the default cache max-age of get; these
collaborators live in _common.py and _config.py, which are not part of the
source under verification, and are modelled from the spec as opaque
configuration data. -/
structure Config where
  selectedLeagues : List String
  translateLeague : String → Option String
  teamReplacements : String → Option String
  stdCol : String → String
  dfltMaxAge : Option Nat

/-- The call site a document request comes from. -/
inductive PageKind where
  | home
  | updates
  | leaguesDir
  | teamsList
  | roster
  | profile
deriving DecidableEq, Repr

/-- One document request issued through the fetcher collaborator: the call
site, the URL, the cache path, and the max-age passed. -/
structure GetCall where
  kind : PageKind
  url : String
  path : String
  maxAge : Option Nat
deriving DecidableEq, Repr

/-- Modelled from the spec: the fetcher contract get(url, cache_path,
max_age) of the external Document Fetcher (_common.BaseRequestsReader.get,
not part of the source under verification).  A cached document is served when
present and fresh; max_age = None means the cache is trusted forever if
present; otherwise the network document is fetched. -/
def cacheGet {α : Type} (cached : Option (α × Nat)) (web : α) (maxAge : Option Nat) : α :=
  match cached, maxAge with
  | none, _ => web
  | some (d, _), none => d
  | some (d, age), some m => if age ≤ m then d else web

/-- Modelled from the spec: whether the fetcher contract answers the given
request from the network rather than from the cache. -/
def fetchDownloads {α : Type} (cached : Option (α × Nat)) (maxAge : Option Nat) : Bool :=
  match cached, maxAge with
  | none, _ => true
  | some _, none => false
  | some (_, age), some m => ¬ age ≤ m

/-- Whether a recorded request of this session hits the network under the
fetcher contract: requests of the cache-managed pages consult the modelled
cache; the remaining pages are modelled without a warm cache. -/
def callDownloads (env : Env) (c : GetCall) : Bool :=
  match c.kind with
  | .home => fetchDownloads env.cacheHome c.maxAge
  | .updates => fetchDownloads (env.cacheUpdates c.path) c.maxAge
  | _ => true

/-- Computation of a reader: the list of document requests it issued, and
its result or the first Python exception raised. -/
def M (α : Type) : Type := List GetCall × Except PyErr α

/-- Sequencing of fetch-recording computations: an exception discards the
continuation but keeps the requests already issued. -/
def mBind {α β : Type} (x : M α) (f : α → M β) : M β :=
  match x with
  | (t, .error e) => (t, .error e)
  | (t, .ok a) =>
    match f a with
    | (t', r) => (t ++ t', r)

instance : Monad M where
  pure a := ([], .ok a)
  bind := mBind

/-- Lift a pure fallible step into the fetch-recording monad. -/
def liftE {α : Type} (e : Except PyErr α) : M α := ([], e)

/-- Record one document request and return the served document. -/
def record {α : Type} (c : GetCall) (doc : α) : M α := ([c], .ok doc)

/-- Base URL of the scraped site. -/
def soFifaApi : String := "https://sofifa.com"

/-- URL of the team listing page for a league and version. -/
def teamsListUrl (lg vid : Nat) : String :=
  soFifaApi ++ "/teams?lg=" ++ natToDec lg ++ "&r=" ++ natToDec vid ++ "&set=true"

/-- Cache path of the team listing page. -/
def teamsListPath (lg vid : Nat) : String :=
  "teams_" ++ natToDec lg ++ "_" ++ natToDec vid ++ ".html"

/-- URL of the roster page for a team and version. -/
def rosterUrl (team vid : Nat) : String :=
  soFifaApi ++ "/team/" ++ natToDec team ++ "/?r=" ++ natToDec vid ++ "&set=true"

/-- Cache path of the roster page. -/
def rosterPath (team vid : Nat) : String :=
  "players_" ++ natToDec team ++ "_" ++ natToDec vid ++ ".html"

/-- URL of the profile page for a player and version. -/
def profileUrl (player vid : Nat) : String :=
  soFifaApi ++ "/player/" ++ natToDec player ++ "/?r=" ++ natToDec vid ++ "&set=true"

/-- Cache path of the profile page. -/
def profilePath (player vid : Nat) : String :=
  "player_" ++ natToDec player ++ "_" ++ natToDec vid ++ ".html"

/-- Cache path of the update-selector page of one FIFA edition. -/
def updatesPath (edition : String) : String :=
  "updates_" ++ edition ++ ".html"

/-- Iteration order of itertools.product over two row collections. -/
def prodList {α β : Type} (as : List α) (bs : List β) : List (α × β) :=
  as.flatMap (fun a => bs.map (fun b => (a, b)))

/-- Boolean lexicographic comparison of character lists by code point, as
Python (and hence pandas) orders strings. -/
def leChars : List Char → List Char → Bool
  | [], _ => true
  | _ :: _, [] => false
  | c :: cs, d :: ds =>
    if c.toNat < d.toNat then true
    else if d.toNat < c.toNat then false
    else leChars cs ds

/-- Boolean lexicographic comparison of strings by code point. -/
def strLe (a b : String) : Bool := leChars a.data b.data

/-- Boolean comparison of natural keys. -/
def natLeB (a b : Nat) : Bool := decide (a ≤ b)

/-- Insert a keyed row into a key-sorted list, keeping existing rows with
the same key first. -/
def insSortedBy {κ ρ : Type} (le : κ → κ → Bool) (p : κ × ρ) :
    List (κ × ρ) → List (κ × ρ)
  | [] => [p]
  | q :: t => if le q.1 p.1 then q :: insSortedBy le p t else p :: q :: t

/-- Sort a keyed row list ascending by key, as DataFrame.sort_index does. -/
def sortIndexBy {κ ρ : Type} (le : κ → κ → Bool) : List (κ × ρ) → List (κ × ρ)
  | [] => []
  | p :: t => insSortedBy le p (sortIndexBy le t)

/-- DataFrame.tail(n=1): the last row, as a (sub-)table. -/
def tail1 {α : Type} (l : List α) : List α := l.drop (l.length - 1)

/-- Index.unique(): deduplicate keeping the first occurrence of each key. -/
def dedupFirst (seen : List Nat) : List Nat → List Nat
  | [] => []
  | x :: t => if x ∈ seen then dedupFirst seen t else x :: dedupFirst (x :: seen) t

/-- Python match.group(1) on the result of re.search: an AttributeError when
the search returned no match object, the first capture otherwise. -/
def group1 (r : Option (List String)) : Except PyErr String :=
  match r with
  | none => .error (.attributeError "'NoneType' object has no attribute 'group'")
  | some caps => .ok (caps.headD "")

/-- Python list indexing [0]: IndexError on an empty node list. -/
def get0 {α : Type} : List α → Except PyErr α
  | [] => .error (.indexError "list index out of range")
  | a :: _ => .ok a

/-! ### read_versions -/

/-- Update options a given edition's selector page would yield, given the
position of the edition in the home list (the position decides the max-age
passed to the fetcher). -/
def updOptsAt (env : Env) (m : Nat) (i : Nat) (opt : OptNode) : List OptNode :=
  cacheGet (env.cacheUpdates (updatesPath opt.optText))
    (env.webUpdates (soFifaApi ++ opt.optValue))
    (if i = 0 then some m else none)

/-- Parse the update options of one edition page: each option's value must
contain r=(digits), giving the version id; a non-matching value raises the
AttributeError of calling group on None. -/
def parseUpdates (edition : String) : List OptNode → Except PyErr (List (Nat × VersionRow))
  | [] => .ok []
  | o :: rest =>
    match group1 (reSearch patR o.optValue.data) with
    | .error e => .error e
    | .ok cap =>
      match parseUpdates edition rest with
      | .error e => .error e
      | .ok tl => .ok ((pyIntDigits cap, ⟨edition, o.optText⟩) :: tl)

/-- The fetch request read_versions issues for the update page of the
edition at a given position of the home list: the caller's max-age is passed
only at position 0, None for every older edition. -/
def updCallAt (m i : Nat) (opt : OptNode) : GetCall :=
  ⟨.updates, soFifaApi ++ opt.optValue, updatesPath opt.optText,
    if i = 0 then some m else none⟩

/-- The fetch request read_versions issues for the home page. -/
def homeCall (m : Nat) : GetCall := ⟨.home, soFifaApi, "index.html", some m⟩

/-- Loop over the FIFA edition options of the home page (sofifa.py lines
143-160): fetch each edition's update selector (honouring the caller's
max-age only for the first edition) and collect the version rows. -/
def versionsEdLoop (env : Env) (m : Nat) : Nat → List OptNode → M (List (Nat × VersionRow))
  | _, [] => ([], .ok [])
  | i, opt :: rest =>
    match parseUpdates opt.optText (updOptsAt env m i opt) with
    | .error e => ([updCallAt m i opt], .error e)
    | .ok rows =>
      match versionsEdLoop env m (i + 1) rest with
      | (t, .error e) => (updCallAt m i opt :: t, .error e)
      | (t, .ok tl) => (updCallAt m i opt :: t, .ok (rows ++ tl))

/-- The home page document served to this session. -/
def homeDoc (env : Env) (m : Nat) : List OptNode :=
  cacheGet env.cacheHome env.webHome (some m)

/-- Embedding of SoFIFA.read_versions before the final DataFrame step: fetch
the home page, loop over the editions, and collect raw (version_id, row)
records in scrape order. -/
def read_versions_raw (env : Env) (m : Nat) : M (List (Nat × VersionRow)) := do
  let home ← record ⟨.home, soFifaApi, "index.html", some m⟩ (homeDoc env m)
  versionsEdLoop env m 0 home

/-- Final DataFrame step of read_versions (sofifa.py line 161): DataFrame
construction on an empty record list followed by set_index raises KeyError,
as in pandas; otherwise the table is sorted ascending by version_id. -/
def finishVersions (raw : List (Nat × VersionRow)) : M (List (Nat × VersionRow)) :=
  if raw.isEmpty then liftE (.error (.keyError "version_id"))
  else ([], .ok (sortIndexBy natLeB raw))

/-- Embedding of SoFIFA.read_versions, continued: the scraped records as a
table indexed by version_id and sorted ascending by it. -/
def read_versions (env : Env) (m : Nat) : M (List (Nat × VersionRow)) := do
  let raw ← read_versions_raw env m
  finishVersions raw

/-- Embedding of the versions="latest" selection of SoFIFA.__init__
(sofifa.py lines 76-77): the tail(n=1) of the read_versions table. -/
def versionsLatest (env : Env) (m : Nat) : M (List (Nat × VersionRow)) := do
  let rows ← read_versions env m
  pure (tail1 rows)

/-! ### read_leagues -/

/-- Look up each requested league name in the translated league table, in
request order, as DataFrame.loc does on a list of labels; a missing label
raises KeyError. -/
def selectLeagues : List String → List (String × Nat) → Except PyErr (List (String × Nat))
  | [], _ => .ok []
  | k :: ks, tbl =>
    match tbl.find? (fun p => p.1 = k) with
    | none => .error (.keyError k)
    | some p =>
      match selectLeagues ks tbl with
      | .error e => .error e
      | .ok rest => .ok (p :: rest)

/-- Parsing step of SoFIFA.read_leagues (sofifa.py lines 87-116): emit one
record per child league with the composite "[nation] name" display name,
translate names to the canonical scheme (dropping untranslated leagues),
index by name, sort, and restrict to the selected leagues (KeyError when a
selected league is absent). -/
def leaguesBody (cfg : Config) (groups : List LeagueGroup) :
    Except PyErr (List (String × Nat)) :=
  let leagues := groups.flatMap (fun g =>
    g.childs.map (fun c => ("[" ++ c.nationName ++ "] " ++ c.cvalue, c.cid)))
  if leagues.isEmpty then .error (.keyError "league")
  else
    let translated := leagues.filterMap (fun p =>
      (cfg.translateLeague p.1).map (fun nm => (nm, p.2)))
    selectLeagues cfg.selectedLeagues (sortIndexBy strLe translated)

/-- The fetch request read_leagues issues for the league directory. -/
def leaguesCall (cfg : Config) : GetCall :=
  ⟨.leaguesDir, soFifaApi ++ "/api/league", "leagues.json", cfg.dfltMaxAge⟩

/-- Embedding of SoFIFA.read_leagues, continued: one directory fetch, then
the pure parsing and selection step. -/
def read_leagues (cfg : Config) (env : Env) : M (List (String × Nat)) := do
  let groups ← record (leaguesCall cfg) env.webLeagues
  liftE (leaguesBody cfg groups)

/-! ### read_teams -/

/-- One row of the teams table. -/
structure TeamRec where
  team : Option String
  league : String
  fifaEdition : String
  updateLabel : String
deriving DecidableEq, Repr

/-- Parse the rows of one team listing page: take the first anchor of each
row (IndexError when there is none), extract the team id from its href with
the fixed pattern (AttributeError via group on None when it does not match),
and keep the anchor text as the team name. -/
def parseTeamRows (lname : String) (v : VersionRow) :
    List TeamRowDoc → Except PyErr (List (Nat × TeamRec))
  | [] => .ok []
  | row :: rest =>
    match get0 row.links with
    | .error e => .error e
    | .ok link =>
      match group1 (reSearch patTeam link.href.data) with
      | .error e => .error e
      | .ok cap =>
        match parseTeamRows lname v rest with
        | .error e => .error e
        | .ok tl =>
          .ok ((pyIntDigits cap, ⟨link.linkText, lname, v.fifaEdition, v.updateLabel⟩) :: tl)

/-- Loop of read_teams over the product of leagues and versions (sofifa.py
lines 179-209), league-major as itertools.product iterates it. -/
def teamsLoop (cfg : Config) (env : Env) :
    List ((String × Nat) × (Nat × VersionRow)) → M (List (Nat × TeamRec))
  | [] => ([], .ok [])
  | ((lname, lid), (vid, v)) :: rest =>
    let call : GetCall :=
      ⟨.teamsList, teamsListUrl lid vid, teamsListPath lid vid, cfg.dfltMaxAge⟩
    match parseTeamRows lname v (env.webTeamsList lid vid) with
    | .error e => ([call], .error e)
    | .ok rows =>
      match teamsLoop cfg env rest with
      | (t, .error e) => (call :: t, .error e)
      | (t, .ok tl) => (call :: t, .ok (rows ++ tl))

/-- Apply the TEAMNAME_REPLACEMENTS alias table to the team column, as
DataFrame.replace does. -/
def applyReplacements (cfg : Config) (rows : List (Nat × TeamRec)) : List (Nat × TeamRec) :=
  rows.map (fun p =>
    (p.1, { p.2 with team := p.2.team.map (fun t => (cfg.teamReplacements t).getD t) }))

/-- Final DataFrame step of read_teams (sofifa.py line 212): normalise team
names through the alias table and index by team_id (KeyError on an empty
record list).  The table is not sorted: the source applies
set_index(["team_id"]) without sort_index. -/
def finishTeams (cfg : Config) (rows : List (Nat × TeamRec)) : M (List (Nat × TeamRec)) :=
  if rows.isEmpty then liftE (.error (.keyError "team_id"))
  else ([], .ok (applyReplacements cfg rows))

/-- Embedding of SoFIFA.read_teams, continued. -/
def read_teams (cfg : Config) (env : Env) (versions : List (Nat × VersionRow)) :
    M (List (Nat × TeamRec)) := do
  let lgs ← read_leagues cfg env
  let rows ← teamsLoop cfg env (prodList lgs versions)
  finishTeams cfg rows

/-! ### read_players -/

/-- One row of the players table. -/
structure PlayerRec where
  player : Option String
  team : Option String
  league : String
  fifaEdition : String
  updateLabel : String
deriving DecidableEq, Repr

/-- Modelled from the spec: add_standardized_team_name (_common.py, not part
of the source under verification) maps the requested team name(s) to the set
containing each requested name together with its canonical replacement from
the alias table. -/
def add_standardized_team_name (cfg : Config) (ts : List String) : List String :=
  ts ++ ts.filterMap cfg.teamReplacements

/-- Parse the player anchors of the first squad table of a roster page:
extract each player id from the href with the fixed pattern (AttributeError
via group on None when it does not match) and the display name from the
data-tippy-content attribute. -/
def parseAnchors (t : TeamRec) : List PlayerAnchor → Except PyErr (List (Nat × PlayerRec))
  | [] => .ok []
  | a :: rest =>
    match group1 (reSearch patPlayer a.href.data) with
    | .error e => .error e
    | .ok cap =>
      match parseAnchors t rest with
      | .error e => .error e
      | .ok tl =>
        .ok ((pyIntDigits cap, ⟨a.tippy, t.team, t.league, t.fifaEdition, t.updateLabel⟩) :: tl)

/-- Loop of read_players over the product of versions and (filtered) teams
(sofifa.py lines 250-282), version-major as the source iterates it. -/
def playersLoop (cfg : Config) (env : Env) :
    List ((Nat × VersionRow) × (Nat × TeamRec)) → M (List (Nat × PlayerRec))
  | [] => ([], .ok [])
  | ((vid, _), (tid, trec)) :: rest =>
    let call : GetCall := ⟨.roster, rosterUrl tid vid, rosterPath tid vid, cfg.dfltMaxAge⟩
    match get0 (env.webSquad tid vid) with
    | .error e => ([call], .error e)
    | .ok tbl =>
      match parseAnchors trec tbl.anchors with
      | .error e => ([call], .error e)
      | .ok rows =>
        match playersLoop cfg env rest with
        | (t, .error e) => (call :: t, .error e)
        | (t, .ok tl) => (call :: t, .ok (rows ++ tl))

/-- The isin test of the team filter of SoFIFA.read_players (sofifa.py line
242): does the row's (already alias-normalised) team name belong to the
canonicalized requested names?  (A None team name matches nothing, as with
pandas isin.) -/
def teamPred (cfg : Config) (ts : List String) (p : Nat × TeamRec) : Bool :=
  match p.2.team with
  | some t => (add_standardized_team_name cfg ts).contains t
  | none => false

/-- Team filter of SoFIFA.read_players (sofifa.py lines 238-246): keep the
teams passing the isin test, raising the no-data ValueError when nothing
matches; no filter when no team is requested. -/
def filterTeams (cfg : Config) (team : Option (List String))
    (dfTeams : List (Nat × TeamRec)) : Except PyErr (List (Nat × TeamRec)) :=
  match team with
  | none => .ok dfTeams
  | some ts =>
    let sel := dfTeams.filter (teamPred cfg ts)
    if sel.isEmpty then
      .error (.valueError "No data found for the given teams in the selected seasons.")
    else .ok sel

/-- Final DataFrame step of read_players (sofifa.py line 285): index by
player_id (KeyError on an empty record list); no sort_index is applied. -/
def finishPlayers (rows : List (Nat × PlayerRec)) : Except PyErr (List (Nat × PlayerRec)) :=
  if rows.isEmpty then .error (.keyError "player_id") else .ok rows

/-- Embedding of SoFIFA.read_players, continued. -/
def read_players (cfg : Config) (env : Env) (versions : List (Nat × VersionRow))
    (team : Option (List String)) : M (List (Nat × PlayerRec)) := do
  let dfTeams ← read_teams cfg env versions
  let iter ← liftE (filterTeams cfg team dfTeams)
  let rows ← playersLoop cfg env (prodList versions iter)
  liftE (finishPlayers rows)

/-! ### read_player_ratings -/

/-- The 38 score labels extracted from each profile page, in source order. -/
def scoreLabels : List String :=
  ["Overall rating", "Potential", "Value", "Wage",
   "Crossing", "Finishing", "Heading accuracy", "Short passing", "Volleys",
   "Dribbling", "Curve", "FK Accuracy", "Long passing", "Ball control",
   "Acceleration", "Sprint speed", "Agility", "Reactions", "Balance",
   "Shot power", "Jumping", "Stamina", "Strength", "Long shots",
   "Aggression", "Interceptions", "Positioning", "Vision", "Penalties",
   "Composure", "Defensive awareness", "Standing tackle", "Sliding tackle",
   "GK Diving", "GK Handling", "GK Kicking", "GK Positioning", "GK Reflexes"]

/-- Association-list lookup of a record field, as a Python dict read. -/
def lookupVal (r : List (String × Val)) (k : String) : Option Val :=
  (r.find? (fun p => p.1 = k)).map Prod.snd

/-- Replace the value at a key in place (Python dict assignment keeps the
insertion position of an existing key). -/
def setVal (r : List (String × Val)) (k : String) (v : Val) : List (String × Val) :=
  r.map (fun p => if p.1 = k then (k, v) else p)

/-- Collect the per-label values of one profile page, in label order. -/
def labelLoop (doc : ProfileDoc) : List String → Except PyErr (List (String × Val))
  | [] => .ok []
  | s :: rest =>
    match tryStrategies [doc.labelNodes s 0, doc.labelNodes s 1, doc.labelNodes s 2] with
    | .error e => .error e
    | .ok v =>
      match labelLoop doc rest with
      | .error e => .error e
      | .ok tl =>
        .ok ((s, match v with
                 | some t => .str t
                 | none => .null) :: tl)

/-- remove_currency applied to a stored record value, as the source applies
it to scores["Wage"] and scores["Value"]: a stored None (or non-string)
reaches re.sub and raises TypeError. -/
def removeCurrencyVal (v : Val) : Except PyErr String :=
  match v with
  | .str s => remove_currency (some s)
  | _ => .error (.typeError "expected string or bytes-like object")

/-- Parse one player profile page (sofifa.py lines 466-528) into the scores
record, in source field order: heading name, version fields, simple name,
biographical fields, position, avatar, title name, the six script-embedded
point scores, the 38 labelled scores, and finally the in-place currency
normalisation of Wage and Value. -/
def parseProfile (player : Nat) (v : VersionRow) (doc : ProfileDoc) :
    Except PyErr (List (String × Val)) := do
  let h1 ← get0 doc.h1s
  let beforeBr := stripStr h1.beforeBr
  let afterBr := stripStr h1.afterBr
  let playerName := if beforeBr ≠ "" then beforeBr else afterBr
  let simpleName ← get0 doc.headerTitles
  let basicInfo ← match doc.basicTexts.find? (fun b => stripStr b ≠ "") with
    | some b => .ok b
    | none => .error (.valueError ("Basic information not found for player " ++ natToDec player))
  let bi ← parseBasicInfo player basicInfo
  let pos ← get0 doc.posTexts
  let avatar ← get0 doc.avatarSrcs
  let nameLine ← get0 doc.docTitles
  let nm := stripStr ⟨(splitOnChar '-' nameLine.data).headD []⟩
  let capa ← get0 doc.scripts2
  let pac ← group1 (reSearch (patPoint "PAC") capa.data)
  let sho ← group1 (reSearch (patPoint "SHO") capa.data)
  let pas ← group1 (reSearch (patPoint "PAS") capa.data)
  let dri ← group1 (reSearch (patPoint "DRI") capa.data)
  let dfn ← group1 (reSearch (patPoint "DEF") capa.data)
  let phy ← group1 (reSearch (patPoint "PHY") capa.data)
  let labelVals ← labelLoop doc scoreLabels
  let base :=
    [("player", Val.str playerName),
     ("fifa_edition", Val.str v.fifaEdition), ("update", Val.str v.updateLabel),
     ("simple_name", Val.str simpleName),
     ("age", Val.nat bi.age), ("birthdate", Val.str bi.birthdate),
     ("height", Val.nat bi.height), ("weight", Val.nat bi.weight),
     ("pos", Val.str pos), ("avatar", Val.str avatar), ("name", Val.str nm),
     ("pac", Val.str pac), ("sho", Val.str sho), ("pas", Val.str pas),
     ("dri", Val.str dri), ("def", Val.str dfn), ("phy", Val.str phy)] ++ labelVals
  let wage ← removeCurrencyVal ((lookupVal base "Wage").getD .null)
  let base2 := setVal base "Wage" (.str wage)
  let value ← removeCurrencyVal ((lookupVal base2 "Value").getD .null)
  .ok (setVal base2 "Value" (.str value))

/-- Loop of read_player_ratings over the product of versions and players
(sofifa.py lines 450-528), version-major. -/
def ratingsLoop (cfg : Config) (env : Env) :
    List ((Nat × VersionRow) × Nat) → M (List (List (String × Val)))
  | [] => ([], .ok [])
  | ((vid, v), p) :: rest =>
    let call : GetCall := ⟨.profile, profileUrl p vid, profilePath p vid, cfg.dfltMaxAge⟩
    match parseProfile p v (env.webProfile p vid) with
    | .error e => ([call], .error e)
    | .ok scores =>
      match ratingsLoop cfg env rest with
      | (t, .error e) => (call :: t, .error e)
      | (t, .ok tl) => (call :: t, .ok (scores :: tl))

/-- set_index(["player"]): pull the player column out of each record as the
row key, removing the column, raising KeyError when the column is absent. -/
def setIndexPlayer : List (List (String × Val)) → Except PyErr (List (String × List (String × Val)))
  | [] => .ok []
  | r :: rest =>
    match lookupVal r "player" with
    | some (.str key) =>
      match setIndexPlayer rest with
      | .error e => .error e
      | .ok tl => .ok ((key, r.filter (fun p => p.1 ≠ "player")) :: tl)
    | some _ => .error (.typeError "unhashable index value")
    | none => .error (.keyError "player")

/-- Final DataFrame step of read_player_ratings: DataFrame construction
(KeyError on an empty record list), the standardize_colnames pipe, the
player index, and the ascending sort by it. -/
def finishRatings (cfg : Config) (rows : List (List (String × Val))) :
    M (List (String × List (String × Val))) :=
  if rows.isEmpty then liftE (.error (.keyError "player"))
  else
    match setIndexPlayer (rows.map (fun r => r.map (fun p => (cfg.stdCol p.1, p.2)))) with
    | .error e => ([], .error e)
    | .ok indexed => ([], .ok (sortIndexBy strLe indexed))

/-- Embedding of SoFIFA.read_player_ratings (sofifa.py lines 375-531): the
players come from the explicit player argument when given (the team argument
is then never consulted), else from read_players filtered by team; profile
pages are fetched over versions × players; the final table is piped through
column-name standardisation, indexed by player name and sorted by it. -/
def read_player_ratings (cfg : Config) (env : Env) (versions : List (Nat × VersionRow))
    (team : Option (List String)) (player : Option (List Nat)) :
    M (List (String × List (String × Val))) := do
  let players ← match player with
    | none => do
      let dfP ← read_players cfg env versions team
      pure (dedupFirst [] (dfP.map Prod.fst))
    | some ps => pure ps
  let rows ← ratingsLoop cfg env (prodList versions players)
  finishRatings cfg rows

/-! ### Concrete fixtures

Small closed environments used to evaluate the embedded readers at explicit
inputs (for counterexamples, and to discharge the hypotheses of the proved
theorems at a witness). -/

/-- A profile page with no queryable content. -/
def emptyProfile : ProfileDoc :=
  ⟨[], [], [], [], [], [], [], fun _ _ => []⟩

/-- An environment with no content anywhere. -/
def baseEnv : Env where
  webHome := []
  cacheHome := none
  webUpdates := fun _ => []
  cacheUpdates := fun _ => none
  webLeagues := []
  webTeamsList := fun _ _ => []
  webSquad := fun _ _ => []
  webProfile := fun _ _ => emptyProfile

/-- A configuration with the identity league translation, an empty alias
table and identity column standardisation. -/
def baseCfg : Config where
  selectedLeagues := []
  translateLeague := fun s => some s
  teamReplacements := fun _ => none
  stdCol := fun s => s
  dfltMaxAge := none

/-- A version row used by the fixtures. -/
def vFix : VersionRow := ⟨"FIFA 24", "FIFA 24 Update 1"⟩

/-- Environment whose single edition's update option carries an href on
which the version-id pattern r=(\d+) finds no match. -/
def envBadHref : Env :=
  { baseEnv with
    webHome := [⟨"FIFA 24", "/f24"⟩]
    webUpdates := fun u =>
      if u = soFifaApi ++ "/f24" then [⟨"Update 1", "nonsense"⟩] else [] }

/-- Environment with two editions whose update pages yield three distinct
version ids in non-ascending scrape order. -/
def envVersions : Env :=
  { baseEnv with
    webHome := [⟨"FIFA 24", "/f24"⟩, ⟨"FIFA 23", "/f23"⟩]
    webUpdates := fun u =>
      if u = soFifaApi ++ "/f24" then
        [⟨"Update 2", "/?r=240002"⟩, ⟨"Update 1", "/?r=240001"⟩]
      else if u = soFifaApi ++ "/f23" then [⟨"Update 9", "/?r=230009"⟩]
      else [] }

/-- envVersions with a stale-looking cached copy of the older edition's
update page: trusted forever because that page is fetched with
max_age=None. -/
def envVersionsCached : Env :=
  { envVersions with
    cacheUpdates := fun p =>
      if p = updatesPath "FIFA 23" then
        some ([⟨"Update 9", "/?r=230009"⟩], 999999)
      else none }

/-- Environment with one league of two teams whose listing rows carry team
ids in decreasing order across two leagues. -/
def envTeams : Env :=
  { baseEnv with
    webLeagues := [⟨[⟨1, "X", "A"⟩, ⟨2, "X", "B"⟩]⟩]
    webTeamsList := fun lg vid =>
      if lg = 1 && vid = 7 then [⟨[⟨"/team/50/foo-club/", some "Beta"⟩]⟩]
      else if lg = 2 && vid = 7 then [⟨[⟨"/team/10/bar-club/", some "Alpha"⟩]⟩]
      else []
    webSquad := fun tid vid =>
      if tid = 50 && vid = 7 then [⟨[⟨"/player/11/joe-doe/", some "Joe Doe"⟩]⟩]
      else if tid = 10 && vid = 7 then [⟨[⟨"/player/12/jim-roe/", some "Jim Roe"⟩]⟩]
      else [] }

/-- Configuration selecting the two leagues of envTeams. -/
def cfgTeams : Config :=
  { baseCfg with selectedLeagues := ["[X] A", "[X] B"] }

/-- Versions table with the single version id 7, as envTeams serves it. -/
def versFix : List (Nat × VersionRow) := [(7, vFix)]

/-- A profile page for the fixtures: the missing list names the labels for
which all three extraction strategies return no node. -/
def profileFix (missing : List String) : ProfileDoc where
  h1s := [⟨"Leo Fix", "Leonard Fixture"⟩]
  headerTitles := ["Leo Fix"]
  basicTexts := ["23y.o. (Feb 5, 2001) 180cm / 75kg"]
  posTexts := ["RW"]
  avatarSrcs := ["avatar.png"]
  docTitles := ["Leo Fix - FIFA 24"]
  scripts2 := ["POINT_PAC=91,POINT_SHO=82,POINT_PAS=73,POINT_DRI=94,POINT_DEF=45,POINT_PHY=66"]
  labelNodes := fun s i =>
    if missing.contains s then []
    else if i = 0 then [⟨some "77"⟩]
    else []

/-- Environment serving a profile page whose Wage field matches no
extraction strategy. -/
def envWageMissing : Env :=
  { baseEnv with webProfile := fun p vid =>
      if p = 9 && vid = 7 then profileFix ["Wage"] else emptyProfile }

/-- Environment serving a profile page whose Crossing field matches no
extraction strategy (Wage and Value present). -/
def envCrossingMissing : Env :=
  { baseEnv with webProfile := fun p vid =>
      if p = 9 && vid = 7 then profileFix ["Crossing"] else emptyProfile }

/-- Environment serving complete profile pages for two players. -/
def envProfiles : Env :=
  { baseEnv with webProfile := fun _ _ => profileFix [] }

/-- The rows a successful parse of one team listing page contributes, and
the empty list where the parse raises; read_teams emits exactly these in
product iteration order when it succeeds. -/
def teamPageRows (env : Env) (pr : (String × Nat) × (Nat × VersionRow)) :
    List (Nat × TeamRec) :=
  match parseTeamRows pr.1.1 pr.2.2 (env.webTeamsList pr.1.2 pr.2.1) with
  | .ok rs => rs
  | .error _ => []

/-- The fetch request read_player_ratings issues for one profile page. -/
def profileCall (cfg : Config) (pr : (Nat × VersionRow) × Nat) : GetCall :=
  ⟨.profile, profileUrl pr.2 pr.1.1, profilePath pr.2 pr.1.1, cfg.dfltMaxAge⟩

/-- The table read_player_ratings returns on envCrossingMissing, when it
returns one (empty when it raises); used to evaluate the missing-optional-
field behaviour at a closed input. -/
def crossingTbl : List (String × List (String × Val)) :=
  ((read_player_ratings baseCfg envCrossingMissing versFix none (some [9])).2.toOption).getD []

/-- The table read_player_ratings returns on envProfiles for player 9 with
an explicit player argument (empty when it raises). -/
def profilesTbl : List (String × List (String × Val)) :=
  ((read_player_ratings baseCfg envProfiles versFix (some ["A"]) (some [9])).2.toOption).getD []

/-! ## Lemmas -/

theorem mBind_def {α β : Type} (x : M α) (f : α → M β) : x >>= f = mBind x f := rfl

theorem mBind_ok {α β : Type} {x : M α} {a : α} (h : x.2 = .ok a) (f : α → M β) :
    mBind x f = (x.1 ++ (f a).1, (f a).2) := by
  obtain ⟨t, r⟩ := x
  cases r with
  | error e => simp at h
  | ok b =>
    simp at h
    subst h
    rfl

theorem mBind_err {α β : Type} {x : M α} {e : PyErr} (h : x.2 = .error e) (f : α → M β) :
    mBind x f = (x.1, .error e) := by
  obtain ⟨t, r⟩ := x
  cases r with
  | error e2 =>
    simp at h
    subst h
    rfl
  | ok b => simp at h

theorem mBind_snd_ok {α β : Type} {x : M α} {f : α → M β} {b : β}
    (h : (mBind x f).2 = .ok b) : ∃ a, x.2 = .ok a ∧ (f a).2 = .ok b := by
  obtain ⟨t, r⟩ := x
  cases r with
  | error e => simp [mBind] at h
  | ok a =>
    refine ⟨a, rfl, ?_⟩
    simpa [mBind] using h

theorem mPure_def {α : Type} (a : α) : (pure a : M α) = ([], .ok a) := rfl

/-! ### Sorting -/

theorem mem_insSortedBy {κ ρ : Type} (le : κ → κ → Bool) (p a : κ × ρ) :
    ∀ l : List (κ × ρ), a ∈ insSortedBy le p l ↔ a = p ∨ a ∈ l := by
  intro l
  induction l with
  | nil => simp [insSortedBy]
  | cons q t ih =>
    unfold insSortedBy
    split
    · simp [ih]
      tauto
    · simp

theorem insSortedBy_pairwise {κ ρ : Type} {le : κ → κ → Bool}
    (htot : ∀ a b, le a b || le b a)
    (htrans : ∀ a b c, le a b = true → le b c = true → le a c = true)
    (p : κ × ρ) {l : List (κ × ρ)}
    (h : l.Pairwise (fun a b => le a.1 b.1 = true)) :
    (insSortedBy le p l).Pairwise (fun a b => le a.1 b.1 = true) := by
  induction l with
  | nil => simp [insSortedBy]
  | cons q t ih =>
    cases h with
    | cons hq ht =>
      unfold insSortedBy
      by_cases hle : le q.1 p.1 = true
      · simp only [hle, if_true]
        refine List.Pairwise.cons ?_ (ih ht)
        intro b hb
        rcases (mem_insSortedBy le p b t).mp hb with hbp | hbt
        · subst hbp; exact hle
        · exact hq b hbt
      · simp only [hle, if_false]
        have hpq : le p.1 q.1 = true := by
          rcases Bool.or_eq_true_iff.mp (htot q.1 p.1) with h1 | h1
          · exact absurd h1 hle
          · exact h1
        refine List.Pairwise.cons ?_ (List.Pairwise.cons hq ht)
        intro b hb
        rcases List.mem_cons.mp hb with hbq | hbt
        · subst hbq; exact hpq
        · exact htrans _ _ _ hpq (hq b hbt)

theorem sortIndexBy_pairwise {κ ρ : Type} {le : κ → κ → Bool}
    (htot : ∀ a b, le a b || le b a)
    (htrans : ∀ a b c, le a b = true → le b c = true → le a c = true) :
    ∀ l : List (κ × ρ), (sortIndexBy le l).Pairwise (fun a b => le a.1 b.1 = true) := by
  intro l
  induction l with
  | nil => simp [sortIndexBy]
  | cons p t ih => exact insSortedBy_pairwise htot htrans p ih

theorem insSortedBy_perm {κ ρ : Type} (le : κ → κ → Bool) (p : κ × ρ) :
    ∀ l : List (κ × ρ), (insSortedBy le p l).Perm (p :: l) := by
  intro l
  induction l with
  | nil => simp [insSortedBy]
  | cons q t ih =>
    unfold insSortedBy
    split
    · exact ((ih.cons q).trans (List.Perm.swap p q t))
    · exact List.Perm.refl _

theorem sortIndexBy_perm {κ ρ : Type} (le : κ → κ → Bool) :
    ∀ l : List (κ × ρ), (sortIndexBy le l).Perm l := by
  intro l
  induction l with
  | nil => simp [sortIndexBy]
  | cons p t ih => exact (insSortedBy_perm le p (sortIndexBy le t)).trans (ih.cons p)

theorem mem_sortIndexBy {κ ρ : Type} (le : κ → κ → Bool) (a : κ × ρ) (l : List (κ × ρ)) :
    a ∈ sortIndexBy le l ↔ a ∈ l :=
  (sortIndexBy_perm le l).mem_iff

theorem natLeB_total : ∀ a b : Nat, natLeB a b || natLeB b a := by
  intro a b
  simp [natLeB]
  omega

theorem natLeB_trans : ∀ a b c : Nat, natLeB a b = true → natLeB b c = true → natLeB a c = true := by
  intro a b c
  simp [natLeB]
  omega

theorem leChars_total : ∀ a b : List Char, leChars a b || leChars b a := by
  intro a
  induction a with
  | nil => intro b; simp [leChars]
  | cons c cs ih =>
    intro b
    cases b with
    | nil => simp [leChars]
    | cons d ds =>
      by_cases h1 : c.toNat < d.toNat
      · simp [leChars, h1]
      · by_cases h2 : d.toNat < c.toNat
        · simp [leChars, h1, h2]
        · simpa [leChars, h1, h2] using ih ds

theorem leChars_trans :
    ∀ a b c : List Char, leChars a b = true → leChars b c = true → leChars a c = true := by
  intro a
  induction a with
  | nil => intro b c _ _; simp [leChars]
  | cons x xs ih =>
    intro b c hab hbc
    cases b with
    | nil => simp [leChars] at hab
    | cons y ys =>
      cases c with
      | nil => simp [leChars] at hbc
      | cons z zs =>
        rw [leChars] at hab hbc ⊢
        by_cases hxy : x.toNat < y.toNat
        · by_cases hyz : y.toNat < z.toNat
          · have : x.toNat < z.toNat := Nat.lt_trans hxy hyz
            simp [this]
          · by_cases hzy : z.toNat < y.toNat
            · simp [hyz, hzy] at hbc
            · have hy : y.toNat = z.toNat := by omega
              simp [hy ▸ hxy]
        · by_cases hyx : y.toNat < x.toNat
          · simp [hxy, hyx] at hab
          · have hx : x.toNat = y.toNat := by omega
            by_cases hyz : y.toNat < z.toNat
            · simp [hx ▸ hyz]
            · by_cases hzy : z.toNat < y.toNat
              · simp [hyz, hzy] at hbc
              · have hy : y.toNat = z.toNat := by omega
                simp [hxy, hyx] at hab
                simp [hyz, hzy] at hbc
                have hxz : ¬ x.toNat < z.toNat := by omega
                have hzx : ¬ z.toNat < x.toNat := by omega
                simp [hxz, hzx]
                exact ih ys zs hab hbc

theorem strLe_total : ∀ a b : String, strLe a b || strLe b a := by
  intro a b
  exact leChars_total a.data b.data

theorem strLe_trans :
    ∀ a b c : String, strLe a b = true → strLe b c = true → strLe a c = true := by
  intro a b c
  exact leChars_trans a.data b.data c.data

theorem tail1_eq {α : Type} : ∀ (l : List α) (h : l ≠ []), tail1 l = [l.getLast h] := by
  intro l
  induction l with
  | nil => intro h; exact absurd rfl h
  | cons a t ih =>
    intro _
    cases t with
    | nil => rfl
    | cons b u =>
      have h2 : b :: u ≠ [] := by simp
      have : tail1 (a :: b :: u) = tail1 (b :: u) := by
        simp [tail1, List.drop_succ_cons]
      rw [this, ih h2, List.getLast_cons h2]

theorem pairwise_getLast {α : Type} {R : α → α → Prop} :
    ∀ (l : List α), l.Pairwise R → ∀ (hne : l ≠ []) (a : α), a ∈ l →
      a = l.getLast hne ∨ R a (l.getLast hne) := by
  intro l
  induction l with
  | nil => intro _ hne; exact absurd rfl hne
  | cons x t ih =>
    intro h hne a ha
    cases h with
    | cons hx ht =>
      cases t with
      | nil =>
        simp at ha
        subst ha
        left
        rfl
      | cons y u =>
        have hne2 : y :: u ≠ [] := by simp
        rw [List.getLast_cons hne2]
        rcases List.mem_cons.mp ha with hax | hat
        · subst hax
          right
          exact hx _ (List.getLast_mem hne2)
        · exact ih ht hne2 a hat

/-! ### Decimal rendering and parsing -/

theorem digitChar_toNat {d : Nat} (h : d < 10) : (Nat.digitChar d).toNat - 48 = d := by
  interval_cases d <;> decide

theorem digitChar_isDigit {d : Nat} (h : d < 10) : (Nat.digitChar d).isDigit = true := by
  interval_cases d <;> decide

theorem decCharsAux_val :
    ∀ fuel n, n ≤ fuel →
      (decCharsAux fuel n).foldl (fun a c => a * 10 + (c.toNat - 48)) 0 = n := by
  intro fuel
  induction fuel with
  | zero =>
    intro n hn
    interval_cases n
    rfl
  | succ f ih =>
    intro n hn
    cases n with
    | zero => rfl
    | succ k =>
      rw [decCharsAux, List.foldl_append]
      have hdiv : (k + 1) / 10 ≤ f := by
        have : (k + 1) / 10 < k + 1 := Nat.div_lt_self (Nat.succ_pos k) (by norm_num)
        omega
      rw [ih _ hdiv]
      simp only [List.foldl_cons, List.foldl_nil]
      rw [digitChar_toNat (Nat.mod_lt _ (by norm_num))]
      omega

theorem decCharsAux_digits :
    ∀ fuel n c, c ∈ decCharsAux fuel n → c.isDigit = true := by
  intro fuel
  induction fuel with
  | zero => intro n c hc; simp [decCharsAux] at hc
  | succ f ih =>
    intro n c hc
    cases n with
    | zero => simp [decCharsAux] at hc
    | succ k =>
      rw [decCharsAux] at hc
      rcases List.mem_append.mp hc with h1 | h1
      · exact ih _ c h1
      · simp at h1
        subst h1
        exact digitChar_isDigit (Nat.mod_lt _ (by norm_num))

theorem natToDecChars_digits {n : Nat} {c : Char} (h : c ∈ natToDecChars n) :
    c.isDigit = true := by
  unfold natToDecChars at h
  split at h
  · simp at h
    subst h
    decide
  · exact decCharsAux_digits n n c h

theorem decCharsAux_ne_nil : ∀ fuel n, n ≠ 0 → n ≤ fuel → decCharsAux fuel n ≠ [] := by
  intro fuel n hn hle
  cases fuel with
  | zero => omega
  | succ f =>
    cases n with
    | zero => exact absurd rfl hn
    | succ k => simp [decCharsAux]

theorem natToDecChars_ne_nil (n : Nat) : natToDecChars n ≠ [] := by
  unfold natToDecChars
  split
  · simp
  · exact decCharsAux_ne_nil n n (by assumption) le_rfl

theorem pyIntDigits_natToDec (n : Nat) : pyIntDigits (natToDec n) = n := by
  unfold pyIntDigits natToDec natToDecChars
  split
  · subst n
    rfl
  · exact decCharsAux_val n n le_rfl

/-! ### Substrings -/

theorem startsWith_self : ∀ l : List Char, startsWith l l = true := by
  intro l
  induction l with
  | nil => rfl
  | cons c t ih => simp [startsWith, ih]

theorem containsSub_self : ∀ b : List Char, containsSub b b = true := by
  intro b
  cases b <;> simp [containsSub, startsWith_self]

theorem containsSub_append_right : ∀ a b : List Char, containsSub (a ++ b) b = true := by
  intro a b
  induction a with
  | nil => simpa using containsSub_self b
  | cons c t ih =>
    rw [List.cons_append, containsSub]
    simp [ih]

/-! ### Currency normalization -/

theorem digit_ne_special {c : Char} (h : c.isDigit = true) :
    c ≠ '.' ∧ c ≠ 'M' ∧ c ≠ 'K' := by
  refine ⟨?_, ?_, ?_⟩ <;> intro he <;> rw [he] at h <;> exact absurd h (by decide)

theorem splitOnChar_no_sep {sep : Char} :
    ∀ cs : List Char, (∀ c ∈ cs, c ≠ sep) → splitOnChar sep cs = [cs] := by
  intro cs
  induction cs with
  | nil => intro _; rfl
  | cons c t ih =>
    intro hc
    have hcs : c ≠ sep := hc c (List.mem_cons_self c t)
    rw [splitOnChar, if_neg hcs, ih (fun d hd => hc d (List.mem_cons_of_mem c hd))]

theorem parsePyFloat_digits {cs : List Char} (hd : ∀ c ∈ cs, c.isDigit = true)
    (hne : cs ≠ []) : parsePyFloat cs = some (pyIntDigits ⟨cs⟩, 0) := by
  unfold parsePyFloat
  have hall : cs.all (fun c => c.isDigit || c == '.') = true := by
    rw [List.all_eq_true]
    intro c hc
    simp [hd c hc]
  rw [if_pos hall, splitOnChar_no_sep cs (fun c hc => (digit_ne_special (hd c hc)).1)]
  simp [hne]

theorem any_M_false {cs : List Char} (hd : ∀ c ∈ cs, c.isDigit = true) :
    cs.any (fun c => c == 'M') = false := by
  rw [Bool.eq_false_iff]
  intro hany
  rcases List.any_eq_true.mp hany with ⟨c, hc, hM⟩
  exact absurd (beq_iff_eq.mp hM) (digit_ne_special (hd c hc)).2.1

theorem any_K_false {cs : List Char} (hd : ∀ c ∈ cs, c.isDigit = true) :
    cs.any (fun c => c == 'K') = false := by
  rw [Bool.eq_false_iff]
  intro hany
  rcases List.any_eq_true.mp hany with ⟨c, hc, hK⟩
  exact absurd (beq_iff_eq.mp hK) (digit_ne_special (hd c hc)).2.2

theorem remove_currency_fixed (m : Nat) :
    remove_currency (some (natToDec m)) = .ok (natToDec m) := by
  have hd : ∀ c ∈ (natToDec m).data, c.isDigit = true := fun c hc => natToDecChars_digits hc
  have hfil : (natToDec m).data.filter (fun c => c.isDigit || c == '.') = (natToDec m).data := by
    rw [List.filter_eq_self]
    intro c hc
    simp [hd c hc]
  unfold remove_currency
  simp [hfil, parsePyFloat_digits hd (natToDecChars_ne_nil m), any_M_false hd,
    any_K_false hd]
  show natToDec (pyIntDigits (natToDec m)) = natToDec m
  rw [pyIntDigits_natToDec]

/-! ## Claim C2 -/

/-- C2, counterexample: the claim says remove_currency multiplies by
1,000,000 for an 'M' suffix (1,000 for 'K', 1 otherwise); the source instead
tests whether M occurs anywhere in the string.  On the input "M2" the source
yields "2000000" while the suffix rule of the claim yields "2". -/
theorem c2_remove_currency_counterexample :
    remove_currency (some "M2") = .ok "2000000" ∧
    removeCurrencySpecAlg "M2" = .ok "2" ∧
    remove_currency (some "M2") ≠ .ok (removeCurrencySpecAlg "M2").toOption.get! := by
  refine ⟨by decide, by decide, by decide⟩

/-- C2, amended: remove_currency maps "€1.2M" to "1200000", "€500K" to
"500000" and "€0" to "0"; for every input it strips all characters other
than digits and dots, parses the remainder as a number, multiplies by
1,000,000 when 'M' occurs anywhere in the input, else by 1,000 when 'K'
occurs anywhere, else by 1, truncates, and renders the integer; and it is
idempotent on its own outputs.  (Python's binary floating point is modelled
by exact decimal arithmetic, which agrees on these currency literals.) -/
theorem c2_remove_currency_amended :
    remove_currency (some "€1.2M") = .ok "1200000" ∧
    remove_currency (some "€500K") = .ok "500000" ∧
    remove_currency (some "€0") = .ok "0" ∧
    (∀ s : String, remove_currency (some s) = removeCurrencyContainsAlg s) ∧
    (∀ s r : String, remove_currency (some s) = .ok r →
      remove_currency (some r) = .ok r) := by
  refine ⟨by decide, by decide, by decide, ?_, ?_⟩
  · intro s
    unfold remove_currency removeCurrencyContainsAlg
    cases hp : parsePyFloat (s.data.filter (fun c => c.isDigit || c == '.')) with
    | none => simp [hp]
    | some nk =>
      obtain ⟨n, k⟩ := nk
      by_cases hM : s.data.any (fun c => c == 'M') = true
      · simp [hp, hM]
      · by_cases hK : s.data.any (fun c => c == 'K') = true
        · simp [hp, hM, hK]
        · simp [hp, hM, hK]
  · intro s r h
    simp only [remove_currency] at h
    cases hp : parsePyFloat (s.data.filter (fun c => c.isDigit || c == '.')) with
    | none => simp [hp] at h
    | some nk =>
      obtain ⟨n, k⟩ := nk
      simp only [hp] at h
      by_cases hM : s.data.any (fun c => c == 'M') = true
      · simp only [hM, if_true] at h
        have hr : r = natToDec (n * 1000000 / 10 ^ k) := by
          cases h
          rfl
        subst hr
        exact remove_currency_fixed _
      · by_cases hK : s.data.any (fun c => c == 'K') = true
        · simp only [hM, hK, if_false, if_true] at h
          have hr : r = natToDec (n * 1000 / 10 ^ k) := by
            cases h
            rfl
          subst hr
          exact remove_currency_fixed _
        · simp only [hM, hK, if_false] at h
          have hr : r = natToDec (n / 10 ^ k) := by
            cases h
            rfl
          subst hr
          exact remove_currency_fixed _

/-- C2, witness: the idempotence conjunct applied at the concrete pair
"€1.2M" and its output "1200000". -/
theorem c2_remove_currency_witness :
    remove_currency (some "1200000") = .ok "1200000" :=
  c2_remove_currency_amended.2.2.2.2 "€1.2M" "1200000" (by decide)

/-! ## Claim C6 -/

/-- C6: the per-label extraction tries its three strategies in fixed order;
the first strategy yielding at least one node wins and only its first node's
text is used; later strategies are then not consulted (the result does not
depend on them); when only the third strategy matches the returned value is
the third strategy's first node's text; when none matches the field is
null. -/
theorem c6_strategy_order (n1 n2 n3 : List EmNode) (e : EmNode) (es : List EmNode)
    (t : String) :
    (n1 = [] → n2 = [] → n3 = [] → tryStrategies [n1, n2, n3] = .ok none) ∧
    (n1 = [] → n2 = [] → n3 = e :: es → e.emText = some t →
      tryStrategies [n1, n2, n3] = .ok (some (stripStr t))) ∧
    (n1 = e :: es → e.emText = some t →
      ∀ n2' n3' : List EmNode,
        tryStrategies [n1, n2, n3] = .ok (some (stripStr t)) ∧
        tryStrategies [n1, n2, n3] = tryStrategies [n1, n2', n3']) := by
  refine ⟨?_, ?_, ?_⟩
  · intro h1 h2 h3
    subst h1; subst h2; subst h3
    rfl
  · intro h1 h2 h3 ht
    subst h1; subst h2; subst h3
    simp [tryStrategies, ht]
  · intro h1 ht n2' n3'
    subst h1
    constructor
    · simp [tryStrategies, ht]
    · simp [tryStrategies, ht]

/-- C6, witness: the only-third-matches conjunct applied at a concrete
strategy triple. -/
theorem c6_strategy_order_witness :
    tryStrategies [[], [], [⟨some "88"⟩]] = .ok (some (stripStr "88")) :=
  (c6_strategy_order [] [] [⟨some "88"⟩] ⟨some "88"⟩ [] "88").2.1 rfl rfl rfl rfl

/-! ## Claim C7 -/

/-- C7: the biographical line "23y.o. (Feb 5, 2001) 180cm / 75kg" parses to
age 23, birthdate "02-05" (the year is dropped), height 180 and weight 75;
every line rejected by the fixed pattern makes the parse raise the
recognition error, whose message names the offending player. -/
theorem c7_biographical_parse (pl : Nat) (s : String) :
    parseBasicInfo 158023 "23y.o. (Feb 5, 2001) 180cm / 75kg" =
      .ok ⟨23, "02-05", 180, 75⟩ ∧
    (reMatch patBasicInfo s.data = none →
      parseBasicInfo pl s = .error (.valueError ("Basic information '" ++ s ++
        "' not recognized for player " ++ natToDec pl)) ∧
      containsSub
        ("Basic information '" ++ s ++ "' not recognized for player " ++ natToDec pl).data
        (natToDec pl).data = true) := by
  refine ⟨by decide, ?_⟩
  intro h
  constructor
  · unfold parseBasicInfo
    rw [h]
  · exact containsSub_append_right
      ("Basic information '" ++ s ++ "' not recognized for player ").data
      (natToDec pl).data

/-- C7, witness: the rejection conjunct applied at a concrete malformed
line. -/
theorem c7_biographical_parse_witness :
    parseBasicInfo 3 "nonsense" =
      .error (.valueError "Basic information 'nonsense' not recognized for player 3") :=
  ((c7_biographical_parse 3 "nonsense").2 (by decide)).1

/-! ### read_player_ratings plumbing -/

theorem mPure_bind {α β : Type} (a : α) (f : α → M β) : mBind (pure a) f = f a := rfl

theorem finishRatings_trace (cfg : Config) (rows : List (List (String × Val))) :
    (finishRatings cfg rows).1 = [] := by
  unfold finishRatings
  split
  · rfl
  · split <;> rfl

theorem finishRatings_ok {cfg : Config} {rows : List (List (String × Val))}
    {tbl : List (String × List (String × Val))}
    (h : (finishRatings cfg rows).2 = .ok tbl) :
    ∃ indexed, tbl = sortIndexBy strLe indexed := by
  unfold finishRatings at h
  split at h
  · simp [liftE] at h
  · split at h
    · simp at h
    · simp at h
      exact ⟨_, h.symm⟩

theorem ratingsLoop_cons_ok {cfg : Config} {env : Env} {vid p : Nat} {v : VersionRow}
    {rest : List ((Nat × VersionRow) × Nat)} {scores : List (String × Val)}
    {t : List GetCall} {tl : List (List (String × Val))}
    (hp : parseProfile p v (env.webProfile p vid) = .ok scores)
    (hloop : ratingsLoop cfg env rest = (t, .ok tl)) :
    ratingsLoop cfg env (((vid, v), p) :: rest) =
      (profileCall cfg ((vid, v), p) :: t, .ok (scores :: tl)) := by
  rw [ratingsLoop, hp, hloop]
  exact rfl

theorem ratingsLoop_cons_okerr {cfg : Config} {env : Env} {vid p : Nat} {v : VersionRow}
    {rest : List ((Nat × VersionRow) × Nat)} {scores : List (String × Val)}
    {t : List GetCall} {e : PyErr}
    (hp : parseProfile p v (env.webProfile p vid) = .ok scores)
    (hloop : ratingsLoop cfg env rest = (t, .error e)) :
    ratingsLoop cfg env (((vid, v), p) :: rest) =
      (profileCall cfg ((vid, v), p) :: t, .error e) := by
  rw [ratingsLoop, hp, hloop]
  exact rfl

theorem ratingsLoop_cons_err {cfg : Config} {env : Env} {vid p : Nat} {v : VersionRow}
    {rest : List ((Nat × VersionRow) × Nat)} {e : PyErr}
    (hp : parseProfile p v (env.webProfile p vid) = .error e) :
    ratingsLoop cfg env (((vid, v), p) :: rest) =
      ([profileCall cfg ((vid, v), p)], .error e) := by
  rw [ratingsLoop, hp]
  exact rfl

theorem ratingsLoop_trace_pref (cfg : Config) (env : Env) :
    ∀ l : List ((Nat × VersionRow) × Nat),
      ∃ rest, (ratingsLoop cfg env l).1 ++ rest = l.map (profileCall cfg) := by
  intro l
  induction l with
  | nil => exact ⟨[], rfl⟩
  | cons pr rest ih =>
    obtain ⟨⟨vid, v⟩, p⟩ := pr
    cases hp : parseProfile p v (env.webProfile p vid) with
    | error e =>
      rw [ratingsLoop_cons_err hp]
      exact ⟨rest.map (profileCall cfg), rfl⟩
    | ok scores =>
      rcases ih with ⟨more, hmore⟩
      rcases hloop : ratingsLoop cfg env rest with ⟨t, r⟩
      rw [hloop] at hmore
      cases r with
      | error e =>
        rw [ratingsLoop_cons_okerr hp hloop]
        exact ⟨more, by simpa using congrArg (List.cons (profileCall cfg ((vid, v), p))) hmore⟩
      | ok tl =>
        rw [ratingsLoop_cons_ok hp hloop]
        exact ⟨more, by simpa using congrArg (List.cons (profileCall cfg ((vid, v), p))) hmore⟩

theorem ratingsLoop_trace_ok (cfg : Config) (env : Env) :
    ∀ (l : List ((Nat × VersionRow) × Nat)) (rows : List (List (String × Val))),
      (ratingsLoop cfg env l).2 = .ok rows →
      (ratingsLoop cfg env l).1 = l.map (profileCall cfg) := by
  intro l
  induction l with
  | nil => intro rows _; rfl
  | cons pr rest ih =>
    obtain ⟨⟨vid, v⟩, p⟩ := pr
    intro rows h
    cases hp : parseProfile p v (env.webProfile p vid) with
    | error e => rw [ratingsLoop_cons_err hp] at h; simp at h
    | ok scores =>
      rcases hloop : ratingsLoop cfg env rest with ⟨t, r⟩
      cases r with
      | error e =>
        rw [ratingsLoop_cons_okerr hp hloop] at h
        simp at h
      | ok tl =>
        rw [ratingsLoop_cons_ok hp hloop] at h ⊢
        simp only [List.map_cons, List.cons.injEq, true_and]
        have := ih tl (by rw [hloop])
        rw [hloop] at this
        exact this

theorem rpr_some (cfg : Config) (env : Env) (versions : List (Nat × VersionRow))
    (team : Option (List String)) (ps : List Nat) :
    read_player_ratings cfg env versions team (some ps) =
      mBind (ratingsLoop cfg env (prodList versions ps)) (finishRatings cfg) := rfl

theorem rpr_trace (cfg : Config) (env : Env) (versions : List (Nat × VersionRow))
    (team : Option (List String)) (ps : List Nat) :
    (read_player_ratings cfg env versions team (some ps)).1 =
      (ratingsLoop cfg env (prodList versions ps)).1 := by
  rw [rpr_some]
  rcases hloop : ratingsLoop cfg env (prodList versions ps) with ⟨t, r⟩
  cases r with
  | error e => rfl
  | ok rows =>
    rw [show mBind (t, Except.ok rows) (finishRatings cfg) =
      ((t, Except.ok rows).1 ++ (finishRatings cfg rows).1, (finishRatings cfg rows).2)
      from mBind_ok rfl _]
    simp [finishRatings_trace]

theorem rpr_ok_loop {cfg : Config} {env : Env} {versions : List (Nat × VersionRow)}
    {team : Option (List String)} {ps : List Nat}
    {tbl : List (String × List (String × Val))}
    (h : (read_player_ratings cfg env versions team (some ps)).2 = .ok tbl) :
    (∃ rows, (ratingsLoop cfg env (prodList versions ps)).2 = .ok rows) ∧
      ∃ indexed, tbl = sortIndexBy strLe indexed := by
  rw [rpr_some] at h
  rcases mBind_snd_ok h with ⟨rows, hrows, hfin⟩
  exact ⟨⟨rows, hrows⟩, finishRatings_ok hfin⟩

/-! ## Claim C10 -/

/-- C10: with an explicit player argument, the team argument has no effect
at all (the two runs are equal as trace-and-result pairs); every document
request issued is a profile-page request; the requests are an initial
segment of the profile requests for the product of the selected versions and
the given player ids, and exactly that list when the call succeeds, so no
team listing or roster page is ever fetched. -/
theorem c10_team_argument_ignored (cfg : Config) (env : Env)
    (versions : List (Nat × VersionRow)) (t1 t2 : Option (List String)) (ps : List Nat) :
    read_player_ratings cfg env versions t1 (some ps) =
      read_player_ratings cfg env versions t2 (some ps) ∧
    (∃ rest, (read_player_ratings cfg env versions t1 (some ps)).1 ++ rest =
      (prodList versions ps).map (profileCall cfg)) ∧
    (∀ tbl, (read_player_ratings cfg env versions t1 (some ps)).2 = .ok tbl →
      (read_player_ratings cfg env versions t1 (some ps)).1 =
        (prodList versions ps).map (profileCall cfg)) ∧
    (∀ c ∈ (read_player_ratings cfg env versions t1 (some ps)).1,
      c.kind = .profile) := by
  refine ⟨rfl, ?_, ?_, ?_⟩
  · rw [rpr_trace]
    exact ratingsLoop_trace_pref cfg env (prodList versions ps)
  · intro tbl h
    rcases rpr_ok_loop h with ⟨⟨rows, hrows⟩, _⟩
    rw [rpr_trace]
    exact ratingsLoop_trace_ok cfg env (prodList versions ps) rows hrows
  · intro c hc
    rw [rpr_trace] at hc
    rcases ratingsLoop_trace_pref cfg env (prodList versions ps) with ⟨rest, hrest⟩
    have hmem : c ∈ (prodList versions ps).map (profileCall cfg) := by
      rw [← hrest]
      exact List.mem_append_left rest hc
    rcases List.mem_map.mp hmem with ⟨pr, _, hpr⟩
    rw [← hpr]
    rfl

/-- C10, witness: the success conjunct applied at a concrete environment
serving complete profile pages, with two different team arguments. -/
theorem c10_team_argument_ignored_witness :
    (read_player_ratings baseCfg envProfiles versFix (some ["A"]) (some [9])).1 =
      (prodList versFix [9]).map (profileCall baseCfg) :=
  (c10_team_argument_ignored baseCfg envProfiles versFix (some ["A"]) (some ["B"]) [9]).2.2.1
    profilesTbl (by decide)

/-! ### read_versions plumbing -/

theorem record_bind {α β : Type} (c : GetCall) (d : α) (f : α → M β) :
    mBind (record c d) f = (c :: (f d).1, (f d).2) := rfl

theorem versionsEdLoop_cons_err {env : Env} {m i : Nat} {opt : OptNode}
    {rest : List OptNode} {e : PyErr}
    (hp : parseUpdates opt.optText (updOptsAt env m i opt) = .error e) :
    versionsEdLoop env m i (opt :: rest) = ([updCallAt m i opt], .error e) := by
  rw [versionsEdLoop, hp]

theorem versionsEdLoop_cons_ok {env : Env} {m i : Nat} {opt : OptNode}
    {rest : List OptNode} {rows0 tl : List (Nat × VersionRow)} {t : List GetCall}
    (hp : parseUpdates opt.optText (updOptsAt env m i opt) = .ok rows0)
    (hloop : versionsEdLoop env m (i + 1) rest = (t, .ok tl)) :
    versionsEdLoop env m i (opt :: rest) = (updCallAt m i opt :: t, .ok (rows0 ++ tl)) := by
  rw [versionsEdLoop, hp, hloop]

theorem versionsEdLoop_cons_okerr {env : Env} {m i : Nat} {opt : OptNode}
    {rest : List OptNode} {rows0 : List (Nat × VersionRow)} {t : List GetCall} {e : PyErr}
    (hp : parseUpdates opt.optText (updOptsAt env m i opt) = .ok rows0)
    (hloop : versionsEdLoop env m (i + 1) rest = (t, .error e)) :
    versionsEdLoop env m i (opt :: rest) = (updCallAt m i opt :: t, .error e) := by
  rw [versionsEdLoop, hp, hloop]

theorem versionsEdLoop_trace_ok (env : Env) (m : Nat) :
    ∀ (opts : List OptNode) (i : Nat) (rows : List (Nat × VersionRow)),
      (versionsEdLoop env m i opts).2 = .ok rows →
      (versionsEdLoop env m i opts).1 =
        (List.enumFrom i opts).map (fun p => updCallAt m p.1 p.2) := by
  intro opts
  induction opts with
  | nil => intro i rows _; rfl
  | cons opt rest ih =>
    intro i rows h
    cases hp : parseUpdates opt.optText (updOptsAt env m i opt) with
    | error e => rw [versionsEdLoop_cons_err hp] at h; simp at h
    | ok rows0 =>
      rcases hloop : versionsEdLoop env m (i + 1) rest with ⟨t, r⟩
      cases r with
      | error e =>
        rw [versionsEdLoop_cons_okerr hp hloop] at h
        simp at h
      | ok tl =>
        rw [versionsEdLoop_cons_ok hp hloop, List.enumFrom_cons]
        simp only [List.map_cons, List.cons.injEq, true_and]
        have := ih (i + 1) tl (by rw [hloop])
        rw [hloop] at this
        exact this

theorem versionsEdLoop_parse_ok (env : Env) (m : Nat) :
    ∀ (opts : List OptNode) (i : Nat) (rows : List (Nat × VersionRow)),
      (versionsEdLoop env m i opts).2 = .ok rows →
      ∀ p ∈ List.enumFrom i opts,
        ∃ rs, parseUpdates p.2.optText (updOptsAt env m p.1 p.2) = .ok rs := by
  intro opts
  induction opts with
  | nil => intro i rows _ p hp; simp [List.enumFrom] at hp
  | cons opt rest ih =>
    intro i rows h p hp
    cases hpar : parseUpdates opt.optText (updOptsAt env m i opt) with
    | error e => rw [versionsEdLoop_cons_err hpar] at h; simp at h
    | ok rows0 =>
      rcases hloop : versionsEdLoop env m (i + 1) rest with ⟨t, r⟩
      cases r with
      | error e =>
        rw [versionsEdLoop_cons_okerr hpar hloop] at h
        simp at h
      | ok tl =>
        rw [List.enumFrom_cons] at hp
        rcases List.mem_cons.mp hp with hp1 | hp1
        · subst hp1
          exact ⟨rows0, hpar⟩
        · exact ih (i + 1) tl (by rw [hloop]) p hp1

theorem read_versions_raw_def (env : Env) (m : Nat) :
    read_versions_raw env m =
      ((homeCall m) :: (versionsEdLoop env m 0 (homeDoc env m)).1,
       (versionsEdLoop env m 0 (homeDoc env m)).2) := by
  show mBind (record (homeCall m) (homeDoc env m)) _ = _
  rw [record_bind]

theorem finishVersions_trace (raw : List (Nat × VersionRow)) :
    (finishVersions raw).1 = [] := by
  unfold finishVersions
  split <;> rfl

theorem finishVersions_snd_ok {raw rows : List (Nat × VersionRow)}
    (h : (finishVersions raw).2 = .ok rows) :
    raw ≠ [] ∧ rows = sortIndexBy natLeB raw := by
  unfold finishVersions at h
  split at h
  · simp [liftE] at h
  · next he =>
    constructor
    · intro hnil
      subst hnil
      exact he rfl
    · simp at h
      exact h.symm

theorem finishVersions_of_ne {raw : List (Nat × VersionRow)} (hne : raw ≠ []) :
    finishVersions raw = ([], .ok (sortIndexBy natLeB raw)) := by
  unfold finishVersions
  have he : raw.isEmpty = false := by
    cases raw
    · exact absurd rfl hne
    · rfl
  rw [he]
  rfl

theorem read_versions_def (env : Env) (m : Nat) :
    read_versions env m = mBind (read_versions_raw env m) finishVersions := rfl

theorem read_versions_trace (env : Env) (m : Nat) :
    (read_versions env m).1 = (read_versions_raw env m).1 := by
  rw [read_versions_def]
  rcases hraw : read_versions_raw env m with ⟨t, r⟩
  cases r with
  | error e => rfl
  | ok raw =>
    rw [show mBind (t, Except.ok raw) finishVersions =
      ((t, Except.ok raw).1 ++ (finishVersions raw).1, (finishVersions raw).2)
      from mBind_ok rfl _]
    simp [finishVersions_trace]

theorem read_versions_ok_raw {env : Env} {m : Nat} {rows : List (Nat × VersionRow)}
    (h : (read_versions env m).2 = .ok rows) :
    ∃ raw, (read_versions_raw env m).2 = .ok raw ∧ raw ≠ [] ∧
      rows = sortIndexBy natLeB raw := by
  rw [read_versions_def] at h
  rcases mBind_snd_ok h with ⟨raw, hraw, hrest⟩
  rcases finishVersions_snd_ok hrest with ⟨hne, hrows⟩
  exact ⟨raw, hraw, hne, hrows⟩

theorem read_versions_ok_of_raw {env : Env} {m : Nat} {raw : List (Nat × VersionRow)}
    (hraw : (read_versions_raw env m).2 = .ok raw) (hne : raw ≠ []) :
    (read_versions env m).2 = .ok (sortIndexBy natLeB raw) := by
  rw [read_versions_def, mBind_ok hraw, finishVersions_of_ne hne]

/-! ## Claim C5 -/

/-- C5: whenever the scraped version records are nonempty and carry pairwise
distinct version ids, the read_versions table is exactly those records
sorted by version_id, its index is strictly increasing (hence unique), and
the versions="latest" selection of the constructor returns exactly one row,
a scraped row whose version_id is the maximum of all scraped version ids. -/
theorem c5_versions_sorted_latest (env : Env) (m : Nat) (raw : List (Nat × VersionRow))
    (h1 : (read_versions_raw env m).2 = .ok raw) (h2 : raw ≠ [])
    (h3 : (raw.map Prod.fst).Nodup) :
    (read_versions env m).2 = .ok (sortIndexBy natLeB raw) ∧
    (sortIndexBy natLeB raw).Pairwise (fun a b => a.1 < b.1) ∧
    ∃ r, (versionsLatest env m).2 = .ok [r] ∧ r ∈ raw ∧ ∀ q ∈ raw, q.1 ≤ r.1 := by
  have hok := read_versions_ok_of_raw h1 h2
  have hperm := sortIndexBy_perm natLeB raw
  have hle : (sortIndexBy natLeB raw).Pairwise (fun a b => a.1 ≤ b.1) :=
    (sortIndexBy_pairwise natLeB_total natLeB_trans raw).imp
      (fun hab => by simpa [natLeB] using hab)
  have hnd : ((sortIndexBy natLeB raw).map Prod.fst).Nodup :=
    ((hperm.map Prod.fst).nodup_iff).mpr h3
  have hne2 : sortIndexBy natLeB raw ≠ [] := by
    intro hnil
    have := hperm.length_eq
    rw [hnil] at this
    cases raw
    · exact h2 rfl
    · simp at this
  refine ⟨hok, ?_, ?_⟩
  · have hnepair : (sortIndexBy natLeB raw).Pairwise (fun a b => a.1 ≠ b.1) :=
      List.pairwise_map.mp hnd
    exact (hle.and hnepair).imp (fun hab => lt_of_le_of_ne hab.1 hab.2)
  · refine ⟨(sortIndexBy natLeB raw).getLast hne2, ?_, ?_, ?_⟩
    · show (mBind (read_versions env m) (fun rows => pure (tail1 rows))).2 = _
      rw [mBind_ok hok, mPure_def]
      simp only
      rw [tail1_eq _ hne2]
    · exact (mem_sortIndexBy natLeB _ raw).mp (List.getLast_mem hne2)
    · intro q hq
      have hq2 : q ∈ sortIndexBy natLeB raw := (mem_sortIndexBy natLeB q raw).mpr hq
      rcases pairwise_getLast _ hle hne2 q hq2 with heq | hlt
      · rw [heq]
      · exact hlt

/-- C5, witness: the theorem applied at a concrete two-edition environment
whose three version ids are scraped out of order. -/
theorem c5_versions_sorted_latest_witness :
    (read_versions envVersions 5).2 =
      .ok (sortIndexBy natLeB
        [(240002, ⟨"FIFA 24", "Update 2"⟩), (240001, ⟨"FIFA 24", "Update 1"⟩),
         (230009, ⟨"FIFA 23", "Update 9"⟩)]) :=
  (c5_versions_sorted_latest envVersions 5
      [(240002, ⟨"FIFA 24", "Update 2"⟩), (240001, ⟨"FIFA 24", "Update 1"⟩),
       (230009, ⟨"FIFA 23", "Update 9"⟩)]
      (by decide) (by decide) (by decide)).1

/-! ## Claim C9 -/

/-- C9: whenever read_versions succeeds, its requests are exactly the home
page followed by one update-selector request per scraped FIFA edition, in
order; the caller's max-age is passed only for the edition at position 0 of
the home list (the most recent edition) and None for every older edition, so
that, under the fetcher contract, a cached update page of an older edition
is served from the cache and never re-downloaded while present. -/
theorem c9_update_cache_policy (env : Env) (m : Nat) (rows : List (Nat × VersionRow))
    (h : (read_versions env m).2 = .ok rows) :
    (read_versions env m).1 =
      homeCall m :: (homeDoc env m).enum.map (fun p => updCallAt m p.1 p.2) ∧
    (∀ i opt, (i, opt) ∈ (homeDoc env m).enum →
      (updCallAt m i opt).maxAge = if i = 0 then some m else none) ∧
    (∀ i opt, (i, opt) ∈ (homeDoc env m).enum → i ≠ 0 →
      (env.cacheUpdates (updatesPath opt.optText)).isSome = true →
      callDownloads env (updCallAt m i opt) = false) := by
  rcases read_versions_ok_raw h with ⟨raw, hraw, _, _⟩
  rw [read_versions_raw_def] at hraw
  simp only at hraw
  refine ⟨?_, ?_, ?_⟩
  · rw [read_versions_trace, read_versions_raw_def]
    simp only
    rw [versionsEdLoop_trace_ok env m (homeDoc env m) 0 raw hraw]
    rfl
  · intro i opt _
    rfl
  · intro i opt _ hi hcache
    show fetchDownloads (env.cacheUpdates (updatesPath opt.optText))
      (if i = 0 then some m else none) = false
    rw [if_neg hi]
    rcases hc : env.cacheUpdates (updatesPath opt.optText) with _ | ⟨d, age⟩
    · rw [hc] at hcache
      simp at hcache
    · rfl

/-- C9, witness: the theorem applied at a concrete environment holding a
stale cached copy of the older edition's update page; the conclusion is
instantiated to show that page is served from the cache. -/
theorem c9_update_cache_policy_witness :
    callDownloads envVersionsCached (updCallAt 5 1 ⟨"FIFA 23", "/f23"⟩) = false :=
  (c9_update_cache_policy envVersionsCached 5
      [(230009, ⟨"FIFA 23", "Update 9"⟩), (240001, ⟨"FIFA 24", "Update 1"⟩),
       (240002, ⟨"FIFA 24", "Update 2"⟩)]
      (by decide)).2.2 1 ⟨"FIFA 23", "/f23"⟩ (by decide) (by decide) (by decide)

/-! ### read_teams plumbing -/

theorem get0_ok {α : Type} {l : List α} {a : α} (h : get0 l = .ok a) : ∃ t, l = a :: t := by
  cases l with
  | nil => simp [get0] at h
  | cons b t =>
    simp [get0] at h
    subst h
    exact ⟨t, rfl⟩

theorem group1_ok_ne {r : Option (List String)} {cap : String}
    (h : group1 r = .ok cap) : r ≠ none := by
  intro hn
  subst hn
  simp [group1] at h

theorem parseUpdates_ok_matches {edition : String} :
    ∀ {opts : List OptNode} {rs : List (Nat × VersionRow)},
      parseUpdates edition opts = .ok rs →
      ∀ o ∈ opts, reSearch patR o.optValue.data ≠ none := by
  intro opts
  induction opts with
  | nil => intro rs _ o ho; simp at ho
  | cons o rest ih =>
    intro rs h o2 ho2
    rw [parseUpdates] at h
    cases hg : group1 (reSearch patR o.optValue.data) with
    | error e => rw [hg] at h; simp at h
    | ok cap =>
      rw [hg] at h
      cases hrec : parseUpdates edition rest with
      | error e => rw [hrec] at h; simp at h
      | ok tl =>
        rcases List.mem_cons.mp ho2 with ho | ho
        · subst ho
          exact group1_ok_ne hg
        · exact ih hrec o2 ho

theorem parseTeamRows_ok_matches {lname : String} {v : VersionRow} :
    ∀ {page : List TeamRowDoc} {rs : List (Nat × TeamRec)},
      parseTeamRows lname v page = .ok rs →
      ∀ row ∈ page, ∃ l0 t0, row.links = l0 :: t0 ∧ reSearch patTeam l0.href.data ≠ none := by
  intro page
  induction page with
  | nil => intro rs _ row hrow; simp at hrow
  | cons row rest ih =>
    intro rs h row2 hrow2
    rw [parseTeamRows] at h
    split at h
    · simp at h
    · next link hg =>
      split at h
      · simp at h
      · next cap hm =>
        split at h
        · simp at h
        · next tl hrec =>
          rcases List.mem_cons.mp hrow2 with hr | hr
          · subst hr
            rcases get0_ok hg with ⟨t0, ht0⟩
            exact ⟨link, t0, ht0, group1_ok_ne hm⟩
          · exact ih hrec row2 hr

theorem teamsLoop_cons_err {cfg : Config} {env : Env} {lname : String} {lid vid : Nat}
    {v : VersionRow} {rest : List ((String × Nat) × (Nat × VersionRow))} {e : PyErr}
    (hp : parseTeamRows lname v (env.webTeamsList lid vid) = .error e) :
    teamsLoop cfg env (((lname, lid), (vid, v)) :: rest) =
      ([⟨.teamsList, teamsListUrl lid vid, teamsListPath lid vid, cfg.dfltMaxAge⟩],
       .error e) := by
  rw [teamsLoop, hp]

theorem teamsLoop_cons_ok {cfg : Config} {env : Env} {lname : String} {lid vid : Nat}
    {v : VersionRow} {rest : List ((String × Nat) × (Nat × VersionRow))}
    {rows0 tl : List (Nat × TeamRec)} {t : List GetCall}
    (hp : parseTeamRows lname v (env.webTeamsList lid vid) = .ok rows0)
    (hloop : teamsLoop cfg env rest = (t, .ok tl)) :
    teamsLoop cfg env (((lname, lid), (vid, v)) :: rest) =
      (⟨.teamsList, teamsListUrl lid vid, teamsListPath lid vid, cfg.dfltMaxAge⟩ :: t,
       .ok (rows0 ++ tl)) := by
  rw [teamsLoop, hp, hloop]

theorem teamsLoop_cons_okerr {cfg : Config} {env : Env} {lname : String} {lid vid : Nat}
    {v : VersionRow} {rest : List ((String × Nat) × (Nat × VersionRow))}
    {rows0 : List (Nat × TeamRec)} {t : List GetCall} {e : PyErr}
    (hp : parseTeamRows lname v (env.webTeamsList lid vid) = .ok rows0)
    (hloop : teamsLoop cfg env rest = (t, .error e)) :
    teamsLoop cfg env (((lname, lid), (vid, v)) :: rest) =
      (⟨.teamsList, teamsListUrl lid vid, teamsListPath lid vid, cfg.dfltMaxAge⟩ :: t,
       .error e) := by
  rw [teamsLoop, hp, hloop]

theorem teamsLoop_ok_parse {cfg : Config} {env : Env} :
    ∀ {l : List ((String × Nat) × (Nat × VersionRow))} {rows : List (Nat × TeamRec)},
      (teamsLoop cfg env l).2 = .ok rows →
      ∀ pr ∈ l, ∃ rs, parseTeamRows pr.1.1 pr.2.2 (env.webTeamsList pr.1.2 pr.2.1) = .ok rs := by
  intro l
  induction l with
  | nil => intro rows _ pr hpr; simp at hpr
  | cons pr0 rest ih =>
    obtain ⟨⟨lname, lid⟩, vid, v⟩ := pr0
    intro rows h pr hpr
    cases hp : parseTeamRows lname v (env.webTeamsList lid vid) with
    | error e => rw [teamsLoop_cons_err hp] at h; simp at h
    | ok rows0 =>
      rcases hloop : teamsLoop cfg env rest with ⟨t, r⟩
      cases r with
      | error e =>
        rw [teamsLoop_cons_okerr hp hloop] at h
        simp at h
      | ok tl =>
        rcases List.mem_cons.mp hpr with hpr1 | hpr1
        · subst hpr1
          exact ⟨rows0, hp⟩
        · exact ih (by rw [hloop]) pr hpr1

theorem teamsLoop_ok_rows {cfg : Config} {env : Env} :
    ∀ {l : List ((String × Nat) × (Nat × VersionRow))} {rows : List (Nat × TeamRec)},
      (teamsLoop cfg env l).2 = .ok rows →
      rows = l.flatMap (teamPageRows env) := by
  intro l
  induction l with
  | nil =>
    intro rows h
    simp [teamsLoop] at h
    simp [h.symm]
  | cons pr0 rest ih =>
    obtain ⟨⟨lname, lid⟩, vid, v⟩ := pr0
    intro rows h
    cases hp : parseTeamRows lname v (env.webTeamsList lid vid) with
    | error e => rw [teamsLoop_cons_err hp] at h; simp at h
    | ok rows0 =>
      rcases hloop : teamsLoop cfg env rest with ⟨t, r⟩
      cases r with
      | error e =>
        rw [teamsLoop_cons_okerr hp hloop] at h
        simp at h
      | ok tl =>
        rw [teamsLoop_cons_ok hp hloop] at h
        simp at h
        subst h
        rw [List.flatMap_cons]
        have htl := ih (by rw [hloop])
        rw [← htl]
        unfold teamPageRows
        rw [hp]

theorem finishTeams_snd_ok {cfg : Config} {rows out : List (Nat × TeamRec)}
    (h : (finishTeams cfg rows).2 = .ok out) :
    out = applyReplacements cfg rows := by
  unfold finishTeams at h
  split at h
  · simp [liftE] at h
  · simp at h
    exact h.symm

theorem read_teams_def (cfg : Config) (env : Env) (versions : List (Nat × VersionRow)) :
    read_teams cfg env versions =
      mBind (read_leagues cfg env) (fun lgs =>
        mBind (teamsLoop cfg env (prodList lgs versions)) (finishTeams cfg)) := rfl

theorem read_teams_ok {cfg : Config} {env : Env} {versions : List (Nat × VersionRow)}
    {rows : List (Nat × TeamRec)}
    (h : (read_teams cfg env versions).2 = .ok rows) :
    ∃ lgs rows0, (read_leagues cfg env).2 = .ok lgs ∧
      (teamsLoop cfg env (prodList lgs versions)).2 = .ok rows0 ∧
      rows = applyReplacements cfg rows0 := by
  rw [read_teams_def] at h
  rcases mBind_snd_ok h with ⟨lgs, hlgs, h2⟩
  rcases mBind_snd_ok h2 with ⟨rows0, hrows0, h3⟩
  exact ⟨lgs, rows0, hlgs, hrows0, finishTeams_snd_ok h3⟩

/-! ## Claim C1 -/

/-- C1, counterexample: on an environment whose single update option's href
does not match r=(\d+), read_versions aborts, but with the bare
AttributeError of calling group on None: the error does not name the
offending edition ("FIFA 24") or href ("nonsense"), and no ParseError class
exists in the source. -/
theorem c1_pattern_failure_counterexample :
    (read_versions envBadHref 5).2 =
      .error (.attributeError "'NoneType' object has no attribute 'group'") ∧
    containsSub "'NoneType' object has no attribute 'group'".data "FIFA 24".data = false ∧
    containsSub "'NoneType' object has no attribute 'group'".data "nonsense".data = false := by
  exact ⟨by decide, by decide, by decide⟩

/-- C1, amended: a failing extraction pattern always aborts the containing
parse with a raised exception rather than silently emitting a corrupt
record: read_versions can only succeed when every scraped update href
matches r=(\d+), read_teams can only succeed when every listing row has a
link matching the team pattern, and a biographical line rejected by the
fixed grammar raises an error; only the last names the offending entity (the
player), while the version-id and team-href failures raise a bare
AttributeError without entity context. -/
theorem c1_pattern_failure_aborts (env : Env) (m : Nat) (cfg : Config)
    (versions : List (Nat × VersionRow)) (raw : List (Nat × VersionRow))
    (rows : List (Nat × TeamRec)) (lgs : List (String × Nat)) (pl : Nat) (s : String) :
    ((read_versions_raw env m).2 = .ok raw →
      ∀ p ∈ (homeDoc env m).enum, ∀ o ∈ updOptsAt env m p.1 p.2,
        reSearch patR o.optValue.data ≠ none) ∧
    ((read_leagues cfg env).2 = .ok lgs → (read_teams cfg env versions).2 = .ok rows →
      ∀ pr ∈ prodList lgs versions, ∀ row ∈ env.webTeamsList pr.1.2 pr.2.1,
        ∃ l0 t0, row.links = l0 :: t0 ∧ reSearch patTeam l0.href.data ≠ none) ∧
    (reMatch patBasicInfo s.data = none →
      parseBasicInfo pl s = .error (.valueError ("Basic information '" ++ s ++
        "' not recognized for player " ++ natToDec pl))) := by
  refine ⟨?_, ?_, ?_⟩
  · intro h p hp o ho
    rw [read_versions_raw_def] at h
    simp only at h
    have hpar := versionsEdLoop_parse_ok env m (homeDoc env m) 0 raw h p hp
    rcases hpar with ⟨rs, hrs⟩
    exact parseUpdates_ok_matches hrs o ho
  · intro hlgs h pr hpr row hrow
    rcases read_teams_ok h with ⟨lgs2, rows0, hlgs2, hloop, _⟩
    rw [hlgs] at hlgs2
    have : lgs2 = lgs := by
      cases hlgs2
      rfl
    subst this
    rcases teamsLoop_ok_parse hloop pr hpr with ⟨rs, hrs⟩
    exact parseTeamRows_ok_matches hrs row hrow
  · intro h
    unfold parseBasicInfo
    rw [h]

/-- C1, witness: the versions conjunct applied at the concrete two-edition
environment, instantiated at the first edition's first update option. -/
theorem c1_pattern_failure_aborts_witness :
    reSearch patR "/?r=240002".data ≠ none :=
  (c1_pattern_failure_aborts envVersions 5 baseCfg [] [(240002, ⟨"FIFA 24", "Update 2"⟩),
      (240001, ⟨"FIFA 24", "Update 1"⟩), (230009, ⟨"FIFA 23", "Update 9"⟩)] [] [] 0 "").1
    (by decide) (0, ⟨"FIFA 24", "/f24"⟩) (by decide) ⟨"Update 2", "/?r=240002"⟩ (by decide)

/-! ### read_players plumbing -/

theorem mBind_trace_mem {α β : Type} {x : M α} {f : α → M β} {c : GetCall}
    (hc : c ∈ (mBind x f).1) :
    c ∈ x.1 ∨ ∃ a, x.2 = .ok a ∧ c ∈ (f a).1 := by
  obtain ⟨t, r⟩ := x
  cases r with
  | error e => exact Or.inl hc
  | ok a =>
    have : c ∈ t ++ (f a).1 := hc
    rcases List.mem_append.mp this with h1 | h1
    · exact Or.inl h1
    · exact Or.inr ⟨a, rfl, h1⟩

theorem finishTeams_trace (cfg : Config) (rows : List (Nat × TeamRec)) :
    (finishTeams cfg rows).1 = [] := by
  unfold finishTeams
  split <;> rfl

theorem read_leagues_trace (cfg : Config) (env : Env) :
    (read_leagues cfg env).1 = [leaguesCall cfg] := rfl

theorem teamsLoop_trace_kinds {cfg : Config} {env : Env} :
    ∀ {l : List ((String × Nat) × (Nat × VersionRow))} {c : GetCall},
      c ∈ (teamsLoop cfg env l).1 → c.kind = .teamsList := by
  intro l
  induction l with
  | nil => intro c hc; simp [teamsLoop] at hc
  | cons pr0 rest ih =>
    obtain ⟨⟨lname, lid⟩, vid, v⟩ := pr0
    intro c hc
    cases hp : parseTeamRows lname v (env.webTeamsList lid vid) with
    | error e =>
      rw [teamsLoop_cons_err hp] at hc
      simp at hc
      rw [hc]
    | ok rows0 =>
      rcases hloop : teamsLoop cfg env rest with ⟨t, r⟩
      have hmem : c ∈ t → c.kind = PageKind.teamsList := by
        intro hct
        have h5 := fun hm => ih (c := c) hm
        rw [hloop] at h5
        exact h5 hct
      cases r with
      | error e =>
        rw [teamsLoop_cons_okerr hp hloop] at hc
        rcases List.mem_cons.mp hc with h1 | h1
        · rw [h1]
        · exact hmem h1
      | ok tl =>
        rw [teamsLoop_cons_ok hp hloop] at hc
        rcases List.mem_cons.mp hc with h1 | h1
        · rw [h1]
        · exact hmem h1

theorem read_teams_trace_kinds {cfg : Config} {env : Env}
    {versions : List (Nat × VersionRow)} {c : GetCall}
    (hc : c ∈ (read_teams cfg env versions).1) :
    c.kind = .leaguesDir ∨ c.kind = .teamsList := by
  rw [read_teams_def] at hc
  rcases mBind_trace_mem hc with h1 | ⟨lgs, _, h1⟩
  · rw [read_leagues_trace] at h1
    simp at h1
    left
    rw [h1]
    rfl
  · rcases mBind_trace_mem h1 with h2 | ⟨rows, _, h2⟩
    · exact Or.inr (teamsLoop_trace_kinds h2)
    · rw [finishTeams_trace] at h2
      simp at h2

theorem parseAnchors_ok_team {trec : TeamRec} :
    ∀ {anchors : List PlayerAnchor} {rows : List (Nat × PlayerRec)},
      parseAnchors trec anchors = .ok rows →
      ∀ r ∈ rows, r.2.team = trec.team := by
  intro anchors
  induction anchors with
  | nil =>
    intro rows h r hr
    simp [parseAnchors] at h
    subst h
    simp at hr
  | cons a rest ih =>
    intro rows h r hr
    rw [parseAnchors] at h
    split at h
    · simp at h
    · next cap hm =>
      split at h
      · simp at h
      · next tl hrec =>
        simp at h
        subst h
        rcases List.mem_cons.mp hr with h1 | h1
        · rw [h1]
        · exact ih hrec r h1

theorem playersLoop_ok_team {cfg : Config} {env : Env} :
    ∀ {l : List ((Nat × VersionRow) × (Nat × TeamRec))} {rows : List (Nat × PlayerRec)},
      (playersLoop cfg env l).2 = .ok rows →
      ∀ r ∈ rows, ∃ pr ∈ l, r.2.team = pr.2.2.team := by
  intro l
  induction l with
  | nil =>
    intro rows h r hr
    simp [playersLoop] at h
    subst h
    simp at hr
  | cons pr0 rest ih =>
    obtain ⟨⟨vid, v⟩, tid, trec⟩ := pr0
    intro rows h r hr
    rw [playersLoop] at h
    split at h
    · simp at h
    · next tbl htbl =>
      split at h
      · simp at h
      · next rows0 hanch =>
        rcases hloop : playersLoop cfg env rest with ⟨t, rr⟩
        rw [hloop] at h
        cases rr with
        | error e => simp at h
        | ok tl =>
          simp at h
          subst h
          rcases List.mem_append.mp hr with h1 | h1
          · exact ⟨((vid, v), tid, trec), List.mem_cons_self _ _,
              parseAnchors_ok_team hanch r h1⟩
          · rcases ih (by rw [hloop]) r h1 with ⟨pr, hpr, hteam⟩
            exact ⟨pr, List.mem_cons_of_mem _ hpr, hteam⟩

theorem mem_prodList {α β : Type} {as : List α} {bs : List β} {pr : α × β}
    (h : pr ∈ prodList as bs) : pr.1 ∈ as ∧ pr.2 ∈ bs := by
  unfold prodList at h
  rcases List.mem_flatMap.mp h with ⟨a, ha, hpr⟩
  rcases List.mem_map.mp hpr with ⟨b, hb, heq⟩
  subst heq
  exact ⟨ha, hb⟩

theorem read_players_def (cfg : Config) (env : Env) (versions : List (Nat × VersionRow))
    (team : Option (List String)) :
    read_players cfg env versions team =
      mBind (read_teams cfg env versions) (fun dfTeams =>
        mBind (liftE (filterTeams cfg team dfTeams)) (fun iter =>
          mBind (playersLoop cfg env (prodList versions iter)) (fun rows =>
            liftE (finishPlayers rows)))) := rfl

theorem filterTeams_empty {cfg : Config} {ts : List String} {dfT : List (Nat × TeamRec)}
    (h : (dfT.filter (teamPred cfg ts)).isEmpty = true) :
    filterTeams cfg (some ts) dfT =
      .error (.valueError "No data found for the given teams in the selected seasons.") := by
  unfold filterTeams
  simp [h]

theorem filterTeams_some_ok {cfg : Config} {ts : List String} {dfT iter : List (Nat × TeamRec)}
    (h : filterTeams cfg (some ts) dfT = .ok iter) :
    iter = dfT.filter (teamPred cfg ts) := by
  have h2 : (if (dfT.filter (teamPred cfg ts)).isEmpty = true then
      (Except.error (PyErr.valueError
        "No data found for the given teams in the selected seasons.") :
        Except PyErr (List (Nat × TeamRec)))
    else .ok (dfT.filter (teamPred cfg ts))) = .ok iter := h
  split at h2
  · simp at h2
  · simp at h2
    exact h2.symm

theorem finishPlayers_ok {rows out : List (Nat × PlayerRec)}
    (h : finishPlayers rows = .ok out) : out = rows := by
  unfold finishPlayers at h
  split at h
  · simp at h
  · simp at h
    exact h.symm

/-! ## Claim C3 -/

/-- C3, counterexample: on a concrete environment, requesting a nonexistent
team does raise the no-data error, but only after the league directory and
both team listing pages have been requested: the trace of issued document
requests is nonempty, so the error is not surfaced without fetcher
activity. -/
theorem c3_filter_counterexample :
    (read_players cfgTeams envTeams versFix (some ["Nonexistent FC"])).2 =
      .error (.valueError "No data found for the given teams in the selected seasons.") ∧
    (read_players cfgTeams envTeams versFix (some ["Nonexistent FC"])).1 =
      [leaguesCall cfgTeams,
       ⟨.teamsList, teamsListUrl 1 7, teamsListPath 1 7, none⟩,
       ⟨.teamsList, teamsListUrl 2 7, teamsListPath 2 7, none⟩] := by
  exact ⟨by decide, by decide⟩

/-- C3, amended: when the canonicalized team filter matches no team record,
read_players raises the no-data ValueError before any roster or profile page
is requested (the team table itself is scraped first, so league-directory
and team-listing requests do occur); when the filter matches, every returned
row's team is one of the canonicalized requested names. -/
theorem c3_team_filter (cfg : Config) (env : Env) (versions : List (Nat × VersionRow))
    (ts : List String) (dfT : List (Nat × TeamRec)) (rows : List (Nat × PlayerRec)) :
    ((read_teams cfg env versions).2 = .ok dfT →
      (dfT.filter (teamPred cfg ts)).isEmpty = true →
      (read_players cfg env versions (some ts)).2 =
        .error (.valueError "No data found for the given teams in the selected seasons.") ∧
      ∀ c ∈ (read_players cfg env versions (some ts)).1,
        c.kind ≠ .roster ∧ c.kind ≠ .profile) ∧
    ((read_players cfg env versions (some ts)).2 = .ok rows →
      ∀ r ∈ rows, ∃ t, r.2.team = some t ∧
        (add_standardized_team_name cfg ts).contains t = true) := by
  constructor
  · intro hteams hempty
    constructor
    · rw [read_players_def, mBind_ok hteams, filterTeams_empty hempty]
      rw [show liftE (Except.error (PyErr.valueError
        "No data found for the given teams in the selected seasons.")) =
        (([] : List GetCall), Except.error (PyErr.valueError
        "No data found for the given teams in the selected seasons.")) from rfl]
      rw [mBind_err rfl]
    · intro c hc
      rw [read_players_def] at hc
      rcases mBind_trace_mem hc with h1 | ⟨dfT2, hdf2, h1⟩
      · rcases read_teams_trace_kinds h1 with hk | hk <;>
          exact ⟨(by rw [hk]; decide), (by rw [hk]; decide)⟩
      · rcases mBind_trace_mem h1 with h2 | ⟨iter, hiter, h2⟩
        · simp [liftE] at h2
        · exfalso
          rw [hteams] at hdf2
          have hdf : dfT2 = dfT := by
            cases hdf2
            rfl
          subst hdf
          rw [filterTeams_empty hempty] at hiter
          simp [liftE] at hiter
  · intro hok r hr
    rw [read_players_def] at hok
    rcases mBind_snd_ok hok with ⟨dfT2, hteams2, h2⟩
    rcases mBind_snd_ok h2 with ⟨iter, hiter, h3⟩
    rcases mBind_snd_ok h3 with ⟨rows0, hrows0, h4⟩
    simp [liftE] at hiter h4
    have hrows : rows = rows0 := finishPlayers_ok h4
    subst hrows
    have hiter2 : iter = dfT2.filter (teamPred cfg ts) := filterTeams_some_ok hiter
    rcases playersLoop_ok_team hrows0 r hr with ⟨pr, hpr, hteam⟩
    have hmem := (mem_prodList hpr).2
    rw [hiter2] at hmem
    have hpred := (List.mem_filter.mp hmem).2
    unfold teamPred at hpred
    rcases hteq : pr.2.2.team with _ | t
    · rw [hteq] at hpred
      simp at hpred
    · rw [hteq] at hpred
      rw [hteq] at hteam
      exact ⟨t, hteam, hpred⟩

/-- C3, witness: the no-match conjunct applied at the concrete two-league
environment with a nonexistent requested team. -/
theorem c3_team_filter_witness :
    (read_players cfgTeams envTeams versFix (some ["Nonexistent FC"])).2 =
      .error (.valueError "No data found for the given teams in the selected seasons.") :=
  ((c3_team_filter cfgTeams envTeams versFix ["Nonexistent FC"]
      [(50, ⟨some "Beta", "[X] A", "FIFA 24", "FIFA 24 Update 1"⟩),
       (10, ⟨some "Alpha", "[X] B", "FIFA 24", "FIFA 24 Update 1"⟩)] []).1
    (by decide) (by decide)).1

/-! ## Claim C8 -/

theorem rpr_def (cfg : Config) (env : Env) (versions : List (Nat × VersionRow))
    (team : Option (List String)) (player : Option (List Nat)) :
    read_player_ratings cfg env versions team player =
      match player with
      | none => mBind (read_players cfg env versions team) (fun dfP =>
          mBind (ratingsLoop cfg env (prodList versions (dedupFirst [] (dfP.map Prod.fst))))
            (finishRatings cfg))
      | some ps => mBind (ratingsLoop cfg env (prodList versions ps)) (finishRatings cfg) := by
  cases player <;> rfl

theorem rpr_ok_sorted {cfg : Config} {env : Env} {versions : List (Nat × VersionRow)}
    {team : Option (List String)} {player : Option (List Nat)}
    {tbl : List (String × List (String × Val))}
    (h : (read_player_ratings cfg env versions team player).2 = .ok tbl) :
    ∃ indexed, tbl = sortIndexBy strLe indexed := by
  rw [rpr_def] at h
  cases player with
  | none =>
    rcases mBind_snd_ok h with ⟨dfP, _, h2⟩
    rcases mBind_snd_ok h2 with ⟨rows, _, h3⟩
    exact finishRatings_ok h3
  | some ps =>
    rcases mBind_snd_ok h with ⟨rows, _, h2⟩
    exact finishRatings_ok h2

/-- C8, counterexample: on a concrete two-league environment whose scraped
team ids arrive in decreasing order, the read_teams table keeps that order:
its team_id index is [50, 10], which is not sorted, because the source
applies set_index(["team_id"]) without sort_index. -/
theorem c8_not_sorted_counterexample :
    Except.map (fun l => l.map Prod.fst) (read_teams cfgTeams envTeams versFix).2 =
      .ok [50, 10] ∧
    ¬ List.Pairwise (fun a b : Nat => a ≤ b) [50, 10] := by
  exact ⟨by decide, by decide⟩

/-- C8, amended: records are produced in the iteration order of the
Cartesian product of the parent collections — whenever read_teams succeeds
its table is exactly the concatenation, in leagues × versions product
order, of the per-page row lists (with the alias replacements applied), not
re-sorted — and the tables that are explicitly re-sorted by index include
read_versions (by version_id) and read_player_ratings (by player name),
whose output is always sorted; read_teams and read_players are returned
without the final sort the claim asserts. -/
theorem c8_product_order_and_sorting (cfg : Config) (env : Env)
    (versions : List (Nat × VersionRow)) (lgs : List (String × Nat))
    (rows : List (Nat × TeamRec)) (team : Option (List String))
    (player : Option (List Nat)) (tbl : List (String × List (String × Val)))
    (m : Nat) (vrows : List (Nat × VersionRow)) :
    ((read_leagues cfg env).2 = .ok lgs → (read_teams cfg env versions).2 = .ok rows →
      rows = applyReplacements cfg ((prodList lgs versions).flatMap (teamPageRows env))) ∧
    ((read_player_ratings cfg env versions team player).2 = .ok tbl →
      tbl.Pairwise (fun a b => strLe a.1 b.1 = true)) ∧
    ((read_versions env m).2 = .ok vrows →
      vrows.Pairwise (fun a b => a.1 ≤ b.1)) := by
  refine ⟨?_, ?_, ?_⟩
  · intro hlgs h
    rcases read_teams_ok h with ⟨lgs2, rows0, hlgs2, hloop, hrepl⟩
    rw [hlgs] at hlgs2
    have : lgs2 = lgs := by
      cases hlgs2
      rfl
    subst this
    rw [hrepl, teamsLoop_ok_rows hloop]
  · intro h
    rcases rpr_ok_sorted h with ⟨indexed, hidx⟩
    subst hidx
    exact sortIndexBy_pairwise strLe_total strLe_trans indexed
  · intro h
    rcases read_versions_ok_raw h with ⟨raw, _, _, hrows⟩
    subst hrows
    exact (sortIndexBy_pairwise natLeB_total natLeB_trans raw).imp
      (fun hab => by simpa [natLeB] using hab)

/-- C8, witness: the product-order conjunct applied at the concrete
two-league environment. -/
theorem c8_product_order_witness :
    [(50, (⟨some "Beta", "[X] A", "FIFA 24", "FIFA 24 Update 1"⟩ : TeamRec)),
     (10, ⟨some "Alpha", "[X] B", "FIFA 24", "FIFA 24 Update 1"⟩)] =
      applyReplacements cfgTeams
        ((prodList [("[X] A", 1), ("[X] B", 2)] versFix).flatMap (teamPageRows envTeams)) :=
  (c8_product_order_and_sorting cfgTeams envTeams versFix [("[X] A", 1), ("[X] B", 2)]
      [(50, ⟨some "Beta", "[X] A", "FIFA 24", "FIFA 24 Update 1"⟩),
       (10, ⟨some "Alpha", "[X] B", "FIFA 24", "FIFA 24 Update 1"⟩)]
      none none [] 0 []).1 (by decide) (by decide)

/-! ## Claim C4 -/

/-- C4, code behaviour at the failing input: on a profile page whose Wage
field matches no extraction strategy, the strategy loop does set the value
to None, but the subsequent unconditional remove_currency(scores["Wage"])
call raises TypeError and aborts read_player_ratings instead of continuing
with a null field; a non-currency optional field (Crossing) missing on an
otherwise complete page does yield a null value with processing running to
completion. -/
theorem c4_missing_wage_typeerror :
    (read_player_ratings baseCfg envWageMissing versFix none (some [9])).2 =
      .error (.typeError "expected string or bytes-like object") ∧
    tryStrategies [([] : List EmNode), [], []] = .ok none ∧
    (read_player_ratings baseCfg envCrossingMissing versFix none (some [9])).2 =
      .ok crossingTbl ∧
    lookupVal (crossingTbl.headD ("", [])).2 "Crossing" = some .null := by
  exact ⟨by decide, by decide, by decide, by decide⟩

end Sofifa
